import Mathlib

/-!
Verification of the authority rotation engine of the beacon chain
(core/beacon/src/authority.rs) against its natural-language specification.

The Rust code is shallowly embedded as executable Lean definitions:

* machine integers (u64, i64) are modelled as Nat and Int; the stake
  amounts appearing in the engine are far below the overflow range;
* Rust HashMaps are modelled as association lists with key-update
  insertion; content (lookup) is deterministic, while the one place the
  code iterates over a HashMap whose traversal order is unspecified (the
  boundary transition over the proposals map) is modelled by an explicit
  reorder parameter, quantified over all permutations;
* the deterministic PRNG shuffle (rand StdRng seeded from the zero hash)
  is modelled by a shuffle-permutation parameter, quantified over all
  functions that permute the token positions of a list of a given length;
* Rust panics (expect, assert, out-of-bounds indexing) are modelled by
  Option, with none meaning the call panics.
-/

namespace Beacon

/-- Association list lookup: first entry whose key matches. -/
def lookupM {κ β : Type} [DecidableEq κ] : List (κ × β) → κ → Option β
  | [], _ => none
  | kv :: rest, k => if kv.1 = k then some kv.2 else lookupM rest k

/-- Association list insert with key update, matching HashMap.insert:
if the key is present its value is replaced in place, otherwise the
pair is appended. -/
def alistInsert {κ β : Type} [DecidableEq κ] : List (κ × β) → κ → β → List (κ × β)
  | [], k, v => [(k, v)]
  | kv :: rest, k, v => if kv.1 = k then (k, v) :: rest else kv :: alistInsert rest k v

/-- Insert every pair of a list into an association list, left to right,
matching HashMap.extend / repeated insert. -/
def extendM {κ β : Type} [DecidableEq κ] (m : List (κ × β)) (kvs : List (κ × β)) : List (κ × β) :=
  kvs.foldl (fun acc kv => alistInsert acc kv.1 kv.2) m

/-- AuthorityProposal from authority.rs: a stake declaration. The
abstract public key type is modelled as Nat. -/
structure AuthorityProposal where
  account_id : String
  public_key : Nat
  amount : Nat
deriving DecidableEq, Repr

/-- AuthorityConfig from authority.rs. -/
structure AuthorityConfig where
  initial_authorities : List AuthorityProposal
  epoch_length : Nat
  num_seats_per_slot : Nat
deriving DecidableEq, Repr

/-- SelectedAuthority from authority.rs: a seat occupant. -/
structure SelectedAuthority where
  account_id : String
  public_key : Nat
deriving DecidableEq, Repr

/-- RecordedProposal from authority.rs: in-epoch accumulator. Stake is
signed: positive for proposals, negative for participation penalties. -/
structure RecordedProposal where
  public_key : Nat
  stake : Int
deriving DecidableEq, Repr

/-- The mutable engine state (struct Authority in authority.rs). The four
HashMaps are modelled as association lists; their lookup content matches
the Rust maps. -/
structure AuthorityState where
  authority_config : AuthorityConfig
  current_epoch : Nat
  current : List (Nat × List SelectedAuthority)
  current_threshold : List (Nat × Nat)
  proposals : List (String × RecordedProposal)
  accepted_proposals : List (Nat × List AuthorityProposal)
deriving DecidableEq, Repr

/-- Header body fields used by the engine (index and on-chain proposals);
carrier record for SignedBeaconBlockHeader.body. -/
structure BlockBody where
  index : Nat
  authority_proposal : List AuthorityProposal
deriving DecidableEq, Repr

/-- The header fields read by process_block_header. -/
structure SignedBeaconBlockHeader where
  body : BlockBody
  authority_mask : List Bool
deriving DecidableEq, Repr

/-- Decidable equality of query results, for evaluating the engine on
concrete scenarios. -/
instance {ε α : Type} [DecidableEq ε] [DecidableEq α] : DecidableEq (Except ε α) :=
  fun x y =>
    match x, y with
    | .error e1, .error e2 =>
      if h : e1 = e2 then isTrue (by rw [h])
      else isFalse (fun hc => h (by injection hc))
    | .error _, .ok _ => isFalse (fun hc => Except.noConfusion hc)
    | .ok _, .error _ => isFalse (fun hc => Except.noConfusion hc)
    | .ok a1, .ok a2 =>
      if h : a1 = a2 then isTrue (by rw [h])
      else isFalse (fun hc => h (by injection hc))

/-- The inner accumulation loop of find_threshold for a candidate mid:
current_sum accumulates item / mid and the loop breaks (returns true) as
soon as the running sum reaches num_seats. -/
def coverLoop (numSeats mid : Nat) : List Nat → Nat → Bool
  | [], _ => false
  | a :: rest, acc =>
    if numSeats ≤ acc + a / mid then true
    else coverLoop numSeats mid rest (acc + a / mid)

/-- The binary-search loop of find_threshold. The Rust while loop is
modelled with explicit fuel; find_threshold supplies enough fuel for the
loop to run to completion (the range shrinks every iteration). -/
def findLoop (proposed : List Nat) (numSeats : Nat) : Nat → Nat → Nat → Nat → Nat
  | 0, _, _, result => result
  | fuel + 1, left, right, result =>
    if left ≤ right then
      if coverLoop numSeats ((left + right) / 2) proposed 0 then
        findLoop proposed numSeats fuel ((left + right) / 2 + 1) right ((left + right) / 2)
      else
        findLoop proposed numSeats fuel left ((left + right) / 2 - 1) result
    else result

/-- find_threshold from authority.rs: errors on the first proposed amount
below num_seats, otherwise binary-searches the largest threshold whose
seat coverage reaches num_seats, starting from result 1 on [2, sum]. -/
def find_threshold (proposed : List Nat) (numSeats : Nat) : Except String Nat :=
  let sum := proposed.sum
  match proposed.find? (fun a => decide (a < numSeats)) with
  | some a =>
    .error ("Proposed " ++ toString a ++ " must be higher then number of seats "
      ++ toString numSeats)
  | none => .ok (findLoop proposed numSeats (sum + 1) 2 sum 1)

/-- Apply a position permutation to a list: entry j of the result is the
element of l at position (p j). Used to model the deterministic shuffle. -/
def applyPerm {α : Type} (p : List Nat) (l : List α) : List α :=
  p.filterMap (fun i => l.get? i)

/-- A shuffle model assigns to every list length a permutation of the
positions; the engine's rand StdRng shuffle with the constant zero seed
is one such function. -/
def ValidPerm (sp : Nat → List Nat) : Prop :=
  ∀ n, (sp n).Perm (List.range n)

/-- A reorder model for HashMap iteration order: any function that
permutes the entries of the proposals map. -/
def ValidReord (ro : List (String × RecordedProposal) → List (String × RecordedProposal)) : Prop :=
  ∀ l, (ro l).Perm l

/-- The identity shuffle model (tokens stay in construction order). -/
def idPerm (n : Nat) : List Nat := List.range n

/-- proposals_to_authority from authority.rs. Returns none when the
threshold solver errors (the Rust .expect panic) or when fewer seat
tokens than num_seats are produced (the Rust assert panic). -/
def proposals_to_authority (sp : Nat → List Nat) (cfg : AuthorityConfig)
    (current_epoch : Nat) (proposals : List AuthorityProposal) (epoch_offset : Nat) :
    Option (List (Nat × List SelectedAuthority) × Nat) :=
  let num_seats := cfg.num_seats_per_slot * cfg.epoch_length
  match find_threshold (proposals.map (·.amount)) num_seats with
  | .error _ => none
  | .ok threshold =>
    let dup_proposals := proposals.foldr
      (fun item acc =>
        (if threshold ≤ item.amount then
          List.replicate (item.amount / threshold)
            (SelectedAuthority.mk item.account_id item.public_key)
        else []) ++ acc) []
    if num_seats ≤ dup_proposals.length then
      let shuffled := applyPerm (sp dup_proposals.length) dup_proposals
      some ((List.range cfg.epoch_length).map (fun i =>
        ((current_epoch + epoch_offset) * cfg.epoch_length + i + 1,
          (shuffled.drop (i * cfg.num_seats_per_slot)).take cfg.num_seats_per_slot)),
        threshold)
    else none

/-- get_authorities from authority.rs: empty committee for genesis, the
cached committee when present, and otherwise an error naming the index,
the current epoch, and the window the error message advertises. -/
def get_authorities (s : AuthorityState) (index : Nat) :
    Except String (List SelectedAuthority) :=
  if index = 0 then .ok []
  else
    match lookupM s.current index with
    | some v => .ok v
    | none =>
      .error ("Authority for index " ++ toString index
        ++ " is not found, current epoch " ++ toString s.current_epoch
        ++ " has indices [" ++ toString (s.current_epoch * s.authority_config.epoch_length)
        ++ ", " ++ toString ((s.current_epoch + 1) * s.authority_config.epoch_length) ++ "]")

/-- Recording of the header body proposals into the proposals map
(the first loop of process_block_header). -/
def recordProposals (props : List (String × RecordedProposal))
    (aps : List AuthorityProposal) : List (String × RecordedProposal) :=
  aps.foldl
    (fun m ap => alistInsert m ap.account_id (RecordedProposal.mk ap.public_key (ap.amount : Int)))
    props

/-- One absence penalty: the or_insert of a zero-stake entry for the seat
occupant followed by subtracting the threshold. -/
def applyPenalty (props : List (String × RecordedProposal))
    (a : SelectedAuthority) (t : Int) : List (String × RecordedProposal) :=
  match lookupM props a.account_id with
  | some rp => alistInsert props a.account_id (RecordedProposal.mk rp.public_key (rp.stake - t))
  | none => props ++ [(a.account_id, RecordedProposal.mk a.public_key (0 - t))]

/-- The participation-mask loop of process_block_header: for every false
bit, the current-epoch threshold is looked up (none = missing threshold
panic) and the seat occupant at that position is penalized (none on
out-of-bounds committee indexing). -/
def penaltyLoop (thresholdOpt : Option Nat) (auths : List SelectedAuthority) :
    List Bool → Nat → List (String × RecordedProposal) →
      Option (List (String × RecordedProposal))
  | [], _, props => some props
  | participated :: rest, i, props =>
    if participated then penaltyLoop thresholdOpt auths rest (i + 1) props
    else
      match thresholdOpt, auths[i]? with
      | some t, some a => penaltyLoop thresholdOpt auths rest (i + 1) (applyPenalty props a (t : Int))
      | _, _ => none

/-- The carry-over condition of the boundary transition: an accepted
proposal survives iff its recorded stake (0 when absent) is negative but
smaller in magnitude than the original amount, or exactly zero. -/
def boundarySurvives (props : List (String × RecordedProposal))
    (p : AuthorityProposal) : Bool :=
  let amount := ((lookupM props p.account_id).getD
    (RecordedProposal.mk p.public_key 0)).stake
  (decide (amount < 0) && decide ((0 - amount).toNat < p.amount)) || decide (amount = 0)

/-- The new_proposals list assembled at an epoch boundary: positive
recorded proposals (in map traversal order, modelled by the reorder
parameter) followed by the surviving accepted proposals of the
completing epoch. -/
def boundaryNewProposals
    (ro : List (String × RecordedProposal) → List (String × RecordedProposal))
    (props : List (String × RecordedProposal))
    (accepted : List AuthorityProposal) : List AuthorityProposal :=
  (ro props).filterMap
    (fun kv =>
      if 0 < kv.2.stake then
        some (AuthorityProposal.mk kv.1 kv.2.public_key kv.2.stake.toNat)
      else none)
    ++ accepted.filter (fun p => boundarySurvives props p)

/-- process_block_header from authority.rs. none models a panic: a
missing committee for the processed index, a missing current-epoch
threshold or an out-of-bounds seat index in the penalty loop, a missing
accepted-proposals entry, or a failing proposals_to_authority call at
the boundary. -/
def process_block_header (sp : Nat → List Nat)
    (ro : List (String × RecordedProposal) → List (String × RecordedProposal))
    (s : AuthorityState) (header : SignedBeaconBlockHeader) : Option AuthorityState :=
  if header.body.index = 0 then some s
  else
    let props1 := recordProposals s.proposals header.body.authority_proposal
    match get_authorities s header.body.index with
    | .error _ => none
    | .ok header_authorities =>
      match penaltyLoop (lookupM s.current_threshold s.current_epoch)
          header_authorities header.authority_mask 0 props1 with
      | none => none
      | some props2 =>
        let next_epoch := header.body.index / s.authority_config.epoch_length
        if next_epoch = s.current_epoch then some { s with proposals := props2 }
        else
          match lookupM s.accepted_proposals s.current_epoch with
          | none => none
          | some accepted =>
            let new_proposals := boundaryNewProposals ro props2 accepted
            match proposals_to_authority sp s.authority_config s.current_epoch
                new_proposals 2 with
            | none => none
            | some (authorities, threshold) =>
              some { s with
                current := extendM s.current authorities,
                current_threshold := alistInsert s.current_threshold next_epoch threshold,
                current_epoch := next_epoch,
                proposals := [],
                accepted_proposals := alistInsert s.accepted_proposals next_epoch new_proposals }

/-- The per-entry double insert of Authority::new: every committee of the
initial proposals_to_authority call is installed at its index and again
one epoch later. -/
def seedCurrent (epochLength : Nat) (auths : List (Nat × List SelectedAuthority)) :
    List (Nat × List SelectedAuthority) :=
  auths.foldl
    (fun m kv => alistInsert (alistInsert m kv.1 kv.2) (kv.1 + epochLength) kv.2) []

/-- Authority::new from authority.rs for a genesis-only blockchain (the
replay loop over historical headers is modelled by runHeaders). none
models the panic of the initial proposals_to_authority call. -/
def Authority.new (sp : Nat → List Nat) (cfg : AuthorityConfig) : Option AuthorityState :=
  match proposals_to_authority sp cfg 0 cfg.initial_authorities 0 with
  | none => none
  | some (initial_authority, threshold) =>
    some
      { authority_config := cfg,
        current_epoch := 0,
        current := seedCurrent cfg.epoch_length initial_authority,
        current_threshold := alistInsert (alistInsert [] 0 threshold) 1 threshold,
        proposals := [],
        accepted_proposals :=
          alistInsert (alistInsert [] 0 cfg.initial_authorities) 1 cfg.initial_authorities }

/-- Construct the engine and feed it a header sequence in order. -/
def runHeaders (sp : Nat → List Nat)
    (ro : List (String × RecordedProposal) → List (String × RecordedProposal))
    (cfg : AuthorityConfig) (headers : List SignedBeaconBlockHeader) :
    Option AuthorityState :=
  headers.foldl (fun os h => os.bind (fun s => process_block_header sp ro s h))
    (Authority.new sp cfg)

end Beacon

namespace Beacon

/-- Total seat coverage of a list of amounts at a candidate threshold. -/
def sumDiv (l : List Nat) (t : Nat) : Nat := (l.map (fun a => a / t)).sum

lemma sumDiv_cons (a : Nat) (l : List Nat) (t : Nat) :
    sumDiv (a :: l) t = a / t + sumDiv l t := rfl

lemma sumDiv_anti (l : List Nat) {m n : Nat} (hm : 0 < m) (hmn : m ≤ n) :
    sumDiv l n ≤ sumDiv l m := by
  induction l with
  | nil => simp [sumDiv]
  | cons a rest ih =>
    rw [sumDiv_cons, sumDiv_cons]
    exact Nat.add_le_add (Nat.div_le_div_left hmn hm) ih

lemma sumDiv_eq_zero {l : List Nat} {t : Nat} (h : ∀ a ∈ l, a < t) : sumDiv l t = 0 := by
  induction l with
  | nil => rfl
  | cons a rest ih =>
    rw [sumDiv_cons, Nat.div_eq_of_lt (h a (by simp)), ih (fun b hb => h b (by simp [hb]))]

lemma sumDiv_one (l : List Nat) : sumDiv l 1 = l.sum := by
  simp [sumDiv]

lemma coverLoop_iff (S mid : Nat) (l : List Nat) :
    ∀ acc : Nat, acc < S → (coverLoop S mid l acc = true ↔ S ≤ acc + sumDiv l mid) := by
  induction l with
  | nil =>
    intro acc hacc
    simp only [coverLoop, sumDiv, List.map_nil, List.sum_nil]
    constructor
    · intro h; cases h
    · omega
  | cons a rest ih =>
    intro acc hacc
    by_cases hbr : S ≤ acc + a / mid
    · simp only [coverLoop, if_pos hbr, sumDiv_cons]
      constructor
      · intro _; omega
      · intro _; trivial
    · have hlt : acc + a / mid < S := by omega
      have := ih (acc + a / mid) hlt
      simp only [coverLoop, if_neg hbr, sumDiv_cons]
      rw [this]
      omega

lemma findLoop_spec (l : List Nat) (S : Nat) (hS : 1 ≤ S) :
    ∀ fuel left right result,
      right + 1 - left ≤ fuel → 2 ≤ left → result + 1 = left →
      S ≤ sumDiv l result →
      (∀ T, right < T → sumDiv l T < S) →
      S ≤ sumDiv l (findLoop l S fuel left right result) ∧
        sumDiv l (findLoop l S fuel left right result + 1) < S ∧
        1 ≤ findLoop l S fuel left right result := by
  intro fuel
  induction fuel with
  | zero =>
    intro left right result hfuel hleft hres hP hN
    simp only [findLoop]
    exact ⟨hP, hN _ (by omega), by omega⟩
  | succ fuel ih =>
    intro left right result hfuel hleft hres hP hN
    simp only [findLoop]
    by_cases hlr : left ≤ right
    · rw [if_pos hlr]
      have hml : left ≤ (left + right) / 2 :=
        (Nat.le_div_iff_mul_le (by omega)).2 (by omega)
      have hmr : (left + right) / 2 ≤ right := by
        calc (left + right) / 2 ≤ right * 2 / 2 := Nat.div_le_div_right (by omega)
        _ = right := Nat.mul_div_cancel _ (by omega)
      by_cases hcov : coverLoop S ((left + right) / 2) l 0 = true
      · rw [if_pos hcov]
        have hPmid : S ≤ sumDiv l ((left + right) / 2) := by
          have := (coverLoop_iff S ((left + right) / 2) l 0 (by omega)).1 hcov
          omega
        exact ih ((left + right) / 2 + 1) right ((left + right) / 2)
          (by omega) (by omega) rfl hPmid hN
      · rw [if_neg hcov]
        have hNmid : sumDiv l ((left + right) / 2) < S := by
          by_contra hge
          exact hcov ((coverLoop_iff S ((left + right) / 2) l 0 (by omega)).2 (by omega))
        refine ih left ((left + right) / 2 - 1) result (by omega) hleft hres hP ?_
        intro T hT
        calc sumDiv l T ≤ sumDiv l ((left + right) / 2) := sumDiv_anti l (by omega) (by omega)
        _ < S := hNmid
    · rw [if_neg hlr]
      exact ⟨hP, hN _ (by omega), by omega⟩

lemma find_threshold_spec (l : List Nat) (S : Nat) (hne : l ≠ []) (hS : 1 ≤ S)
    (hall : ∀ a ∈ l, S ≤ a) :
    ∃ T, find_threshold l S = .ok T ∧ 1 ≤ T ∧ S ≤ sumDiv l T ∧ sumDiv l (T + 1) < S := by
  have hfind : l.find? (fun a => decide (a < S)) = none := by
    rw [List.find?_eq_none]
    intro a ha
    simpa using Nat.not_lt.2 (hall a ha)
  refine ⟨findLoop l S (l.sum + 1) 2 l.sum 1, ?_, ?_⟩
  · simp [find_threshold, hfind]
  · have hP1 : S ≤ sumDiv l 1 := by
      rw [sumDiv_one]
      obtain ⟨a, ha⟩ := List.exists_mem_of_ne_nil l hne
      calc S ≤ a := hall a ha
      _ ≤ l.sum := List.single_le_sum (fun x _ => Nat.zero_le x) a ha
    have hN : ∀ T, l.sum < T → sumDiv l T < S := by
      intro T hT
      have hz : sumDiv l T = 0 := by
        refine sumDiv_eq_zero (fun a ha => ?_)
        calc a ≤ l.sum := List.single_le_sum (fun x _ => Nat.zero_le x) a ha
        _ < T := hT
      omega
    have h := findLoop_spec l S hS (l.sum + 1) 2 l.sum 1 (by omega) (by omega) rfl hP1 hN
    exact ⟨h.2.2, h.1, h.2.1⟩

end Beacon

namespace Beacon

/-- Claim C3: for every non-empty list of amounts in which every amount is
at least the total seat count S, with S at least 1, find_threshold
returns Ok T with T at least 1 such that the seat coverage at T reaches S
while the coverage at T + 1 falls short of S, so T is the maximum integer
threshold covering all seats. -/
theorem claim_c3_find_threshold_maximality (l : List Nat) (S : Nat)
    (hne : l ≠ []) (hS : 1 ≤ S) (hall : ∀ a ∈ l, S ≤ a) :
    ∃ T, find_threshold l S = .ok T ∧ 1 ≤ T ∧ S ≤ sumDiv l T ∧ sumDiv l (T + 1) < S :=
  find_threshold_spec l S hne hS hall

/-- Witness for claim C3 at the first threshold example of the spec. -/
theorem claim_c3_witness :
    ([1000000, 1000000, 10] ≠ ([] : List Nat)) ∧ 1 ≤ 10 ∧
      (∀ a ∈ [1000000, 1000000, 10], 10 ≤ a) ∧
      ∃ T, find_threshold [1000000, 1000000, 10] 10 = .ok T ∧ 1 ≤ T ∧
        10 ≤ sumDiv [1000000, 1000000, 10] T ∧ sumDiv [1000000, 1000000, 10] (T + 1) < 10 :=
  ⟨by decide, by decide, by decide,
    claim_c3_find_threshold_maximality [1000000, 1000000, 10] 10
      (by decide) (by decide) (by decide)⟩

/-- Claim C6: find_threshold returns an error exactly when some individual
amount is strictly below the seat count; in particular the solver rejects
the amounts 1, 1, 2 for 100 seats and returns the four stated values on
the success examples of the spec. -/
theorem claim_c6_find_threshold_error_iff :
    (∀ (l : List Nat) (S : Nat),
      (∃ e, find_threshold l S = .error e) ↔ ∃ a ∈ l, a < S) ∧
    (∃ e, find_threshold [1, 1, 2] 100 = .error e) ∧
    find_threshold [1000000, 1000000, 10] 10 = .ok 200000 ∧
    find_threshold [1000000000, 10] 10 = .ok 100000000 ∧
    find_threshold [1000000000] 1000000000 = .ok 1 ∧
    find_threshold [1000, 1, 1, 1, 1, 1, 1, 1, 1, 1] 1 = .ok 1000 := by
  refine ⟨?_, ⟨_, rfl⟩, rfl, rfl, rfl, rfl⟩
  intro l S
  constructor
  · rintro ⟨e, he⟩
    simp only [find_threshold] at he
    cases hf : l.find? (fun a => decide (a < S)) with
    | none => rw [hf] at he; cases he
    | some a =>
      exact ⟨a, List.mem_of_find?_eq_some hf, by simpa using List.find?_some hf⟩
  · rintro ⟨a, ha, haS⟩
    have hex : (l.find? (fun a => decide (a < S))).isSome := by
      rw [List.find?_isSome]
      exact ⟨a, ha, by simpa using haS⟩
    obtain ⟨b, hb⟩ := Option.isSome_iff_exists.1 hex
    refine ⟨"Proposed " ++ toString b ++ " must be higher then number of seats "
      ++ toString S, ?_⟩
    simp only [find_threshold]
    rw [hb]

lemma lookupM_alistInsert_self {κ β : Type} [DecidableEq κ]
    (m : List (κ × β)) (k : κ) (v : β) :
    lookupM (alistInsert m k v) k = some v := by
  induction m with
  | nil => simp [alistInsert, lookupM]
  | cons kv rest ih =>
    by_cases h : kv.1 = k
    · simp [alistInsert, h, lookupM]
    · simp [alistInsert, h, lookupM, ih]

lemma lookupM_alistInsert_ne {κ β : Type} [DecidableEq κ]
    (m : List (κ × β)) (k k' : κ) (v : β) (h : k ≠ k') :
    lookupM (alistInsert m k v) k' = lookupM m k' := by
  induction m with
  | nil => simp [alistInsert, lookupM, h]
  | cons kv rest ih =>
    by_cases hk : kv.1 = k
    · simp [alistInsert, hk, lookupM, h]
    · simp [alistInsert, hk, lookupM, ih]

lemma lookupM_isSome_iff {κ β : Type} [DecidableEq κ] (m : List (κ × β)) (k : κ) :
    (lookupM m k).isSome = true ↔ k ∈ m.map Prod.fst := by
  induction m with
  | nil => simp [lookupM]
  | cons kv rest ih =>
    by_cases h : kv.1 = k
    · simp [lookupM, h]
    · simp only [lookupM, if_neg h, List.map_cons, List.mem_cons, ih]
      constructor
      · intro hk; exact Or.inr hk
      · rintro (hk | hk)
        · exact absurd hk.symm h
        · exact hk

lemma lookupM_value {κ β : Type} [DecidableEq κ] {P : β → Prop}
    (m : List (κ × β)) (h : ∀ kv ∈ m, P kv.2) (k : κ) (v : β)
    (hl : lookupM m k = some v) : P v := by
  induction m with
  | nil => cases hl
  | cons kv rest ih =>
    by_cases hk : kv.1 = k
    · rw [lookupM, if_pos hk] at hl
      cases hl
      exact h kv (by simp)
    · rw [lookupM, if_neg hk] at hl
      exact ih (fun x hx => h x (by simp [hx])) hl

lemma lookupM_append_none {κ β : Type} [DecidableEq κ]
    (l1 l2 : List (κ × β)) (k : κ) (h : lookupM l1 k = none) :
    lookupM (l1 ++ l2) k = lookupM l2 k := by
  induction l1 with
  | nil => rfl
  | cons kv rest ih =>
    by_cases hk : kv.1 = k
    · rw [lookupM, if_pos hk] at h; cases h
    · rw [lookupM, if_neg hk] at h
      simpa [lookupM, hk] using ih h

lemma lookupM_append_some {κ β : Type} [DecidableEq κ]
    (l1 l2 : List (κ × β)) (k : κ) (v : β) (h : lookupM l1 k = some v) :
    lookupM (l1 ++ l2) k = some v := by
  induction l1 with
  | nil => cases h
  | cons kv rest ih =>
    by_cases hk : kv.1 = k
    · rw [lookupM, if_pos hk] at h
      simpa [lookupM, hk] using h
    · rw [lookupM, if_neg hk] at h
      simpa [lookupM, hk] using ih h

lemma lookupM_extendM_not_mem {κ β : Type} [DecidableEq κ]
    (kvs : List (κ × β)) (m : List (κ × β)) (k : κ)
    (h : k ∉ kvs.map Prod.fst) :
    lookupM (extendM m kvs) k = lookupM m k := by
  induction kvs generalizing m with
  | nil => rfl
  | cons kv rest ih =>
    simp only [List.map_cons, List.mem_cons, not_or] at h
    rw [show extendM m (kv :: rest) = extendM (alistInsert m kv.1 kv.2) rest from rfl]
    rw [ih _ h.2, lookupM_alistInsert_ne _ _ _ _ (fun he => h.1 he.symm)]

lemma lookupM_extendM_mem {κ β : Type} [DecidableEq κ]
    (kvs : List (κ × β)) (m : List (κ × β)) (k : κ) (v : β)
    (hnd : (kvs.map Prod.fst).Nodup) (hmem : (k, v) ∈ kvs) :
    lookupM (extendM m kvs) k = some v := by
  induction kvs generalizing m with
  | nil => cases hmem
  | cons kv rest ih =>
    simp only [List.map_cons, List.nodup_cons] at hnd
    rcases List.mem_cons.1 hmem with heq | hmem'
    · rw [show extendM m (kv :: rest) = extendM (alistInsert m kv.1 kv.2) rest from rfl]
      rw [← heq] at hnd ⊢
      rw [lookupM_extendM_not_mem rest _ _ hnd.1, lookupM_alistInsert_self]
    · rw [show extendM m (kv :: rest) = extendM (alistInsert m kv.1 kv.2) rest from rfl]
      exact ih _ hnd.2 hmem'

lemma filterMap_get?_range {α : Type} (l : List α) :
    (List.range l.length).filterMap (fun i => l.get? i) = l := by
  induction l with
  | nil => rfl
  | cons a rest ih =>
    rw [List.length_cons, List.range_succ_eq_map, List.filterMap_cons, List.filterMap_map]
    have hc : (fun i => (a :: rest).get? i) ∘ Nat.succ = fun i => rest.get? i := by
      funext i; rfl
    rw [hc, ih]
    rfl

lemma applyPerm_perm {α : Type} {p : List Nat} (l : List α)
    (hp : p.Perm (List.range l.length)) : (applyPerm p l).Perm l := by
  have h2 := hp.filterMap (fun i => l.get? i)
  rw [filterMap_get?_range] at h2
  exact h2

lemma applyPerm_length {α : Type} {p : List Nat} (l : List α)
    (hp : p.Perm (List.range l.length)) : (applyPerm p l).length = l.length :=
  (applyPerm_perm l hp).length_eq

end Beacon

namespace Beacon

/-- Claim C7: get_authorities returns the empty committee for index 0,
returns a copy of the cached committee when the index is present, and
otherwise fails with an error message naming the index, the current
epoch, and the window from current_epoch * L to (current_epoch + 1) * L.
The embedding is a pure function of the state, matching the Rust method
that takes an immutable reference and mutates nothing. -/
theorem claim_c7_get_authorities (s : AuthorityState) :
    get_authorities s 0 = .ok [] ∧
    (∀ i v, lookupM s.current i = some v → i ≠ 0 → get_authorities s i = .ok v) ∧
    (∀ i, i ≠ 0 → lookupM s.current i = none →
      get_authorities s i =
        .error ("Authority for index " ++ toString i
          ++ " is not found, current epoch " ++ toString s.current_epoch
          ++ " has indices [" ++ toString (s.current_epoch * s.authority_config.epoch_length)
          ++ ", " ++ toString ((s.current_epoch + 1) * s.authority_config.epoch_length)
          ++ "]")) := by
  refine ⟨rfl, ?_, ?_⟩
  · intro i v hl hi
    rw [get_authorities, if_neg hi, hl]
  · intro i hi hl
    rw [get_authorities, if_neg hi, hl]

/-- A small concrete engine state used by witnesses. -/
def sampleState : AuthorityState where
  authority_config :=
    { initial_authorities := [AuthorityProposal.mk "a" 5 100],
      epoch_length := 2, num_seats_per_slot := 1 }
  current_epoch := 0
  current := [(1, [SelectedAuthority.mk "a" 5])]
  current_threshold := [(0, 10)]
  proposals := []
  accepted_proposals := [(0, [AuthorityProposal.mk "a" 5 100])]

/-- Witness for claim C7 on a small concrete state. -/
theorem claim_c7_witness :
    get_authorities sampleState 0 = .ok [] ∧
    get_authorities sampleState 1 = .ok [SelectedAuthority.mk "a" 5] ∧
    get_authorities sampleState 9 =
      .error "Authority for index 9 is not found, current epoch 0 has indices [0, 2]" := by
  refine ⟨(claim_c7_get_authorities sampleState).1, ?_, ?_⟩
  · exact (claim_c7_get_authorities sampleState).2.1 1 [SelectedAuthority.mk "a" 5]
      (by decide) (by decide)
  · exact (claim_c7_get_authorities sampleState).2.2 9 (by decide) (by decide)

/-- Claim C4: at an epoch boundary an accepted proposal of the completing
epoch passes the carry-over clause iff its recorded stake entry is absent
or has stake zero, or has negative stake of magnitude strictly below the
original amount; an entry with positive recorded stake never passes the
carry-over clause (it can enter new_proposals only through the
positive-proposal clause), and an entry wiped down to or past zero is
dropped. -/
theorem claim_c4_carry_over_characterization
    (props : List (String × RecordedProposal)) (accepted : List AuthorityProposal)
    (p : AuthorityProposal) :
    (p ∈ accepted.filter (fun q => boundarySurvives props q) ↔
      p ∈ accepted ∧
        (lookupM props p.account_id = none ∨
          ∃ rp, lookupM props p.account_id = some rp ∧
            (rp.stake = 0 ∨ (rp.stake < 0 ∧ rp.stake.natAbs < p.amount)))) ∧
    (∀ rp, lookupM props p.account_id = some rp → 0 < rp.stake →
      p ∉ accepted.filter (fun q => boundarySurvives props q)) ∧
    (∀ rp, lookupM props p.account_id = some rp → rp.stake < 0 →
      p.amount ≤ rp.stake.natAbs →
      p ∉ accepted.filter (fun q => boundarySurvives props q)) := by
  have hchar : boundarySurvives props p = true ↔
      (lookupM props p.account_id = none ∨
        ∃ rp, lookupM props p.account_id = some rp ∧
          (rp.stake = 0 ∨ (rp.stake < 0 ∧ rp.stake.natAbs < p.amount))) := by
    unfold boundarySurvives
    cases hl : lookupM props p.account_id with
    | none => simp [hl]
    | some rp =>
      simp only [hl, Option.getD_some, Bool.or_eq_true, Bool.and_eq_true,
        decide_eq_true_eq, Option.some.injEq]
      constructor
      · rintro (⟨hneg, hlt⟩ | hz)
        · exact Or.inr ⟨rp, rfl, Or.inr ⟨hneg, by omega⟩⟩
        · exact Or.inr ⟨rp, rfl, Or.inl hz⟩
      · rintro (h | ⟨rp', hrp', hcond⟩)
        · cases h
        · subst hrp'
          rcases hcond with hz | ⟨hneg, hlt⟩
          · exact Or.inr hz
          · exact Or.inl ⟨hneg, by omega⟩
  refine ⟨?_, ?_, ?_⟩
  · rw [List.mem_filter, hchar]
  · intro rp hrp hpos hmem
    rw [List.mem_filter, hchar] at hmem
    rcases hmem.2 with h | ⟨rp', hrp', hcond⟩
    · rw [h] at hrp; cases hrp
    · rw [hrp] at hrp'
      cases hrp'
      rcases hcond with hz | ⟨hneg, _⟩
      · omega
      · omega
  · intro rp hrp hneg habs hmem
    rw [List.mem_filter, hchar] at hmem
    rcases hmem.2 with h | ⟨rp', hrp', hcond⟩
    · rw [h] at hrp; cases hrp
    · rw [hrp] at hrp'
      cases hrp'
      rcases hcond with hz | ⟨_, hlt⟩
      · omega
      · omega

/-- Witness for claim C4: an accepted entry with recorded stake -30 and
original amount 100 survives; one with stake -100 is dropped; one with
positive stake is not re-included through the carry-over clause. -/
theorem claim_c4_witness :
    (AuthorityProposal.mk "a" 1 100 ∈
      ([AuthorityProposal.mk "a" 1 100]).filter
        (fun q => boundarySurvives [("a", RecordedProposal.mk 1 (-30))] q) ↔
      AuthorityProposal.mk "a" 1 100 ∈ [AuthorityProposal.mk "a" 1 100] ∧
        (lookupM [("a", RecordedProposal.mk 1 (-30))] "a" = none ∨
          ∃ rp, lookupM [("a", RecordedProposal.mk 1 (-30))] "a" = some rp ∧
            (rp.stake = 0 ∨ (rp.stake < 0 ∧ rp.stake.natAbs < 100)))) ∧
    (AuthorityProposal.mk "b" 2 100 ∉
      ([AuthorityProposal.mk "b" 2 100]).filter
        (fun q => boundarySurvives [("b", RecordedProposal.mk 2 7)] q)) ∧
    (AuthorityProposal.mk "c" 3 100 ∉
      ([AuthorityProposal.mk "c" 3 100]).filter
        (fun q => boundarySurvives [("c", RecordedProposal.mk 3 (-100))] q)) := by
  refine ⟨?_, ?_, ?_⟩
  · exact (claim_c4_carry_over_characterization
      [("a", RecordedProposal.mk 1 (-30))] [AuthorityProposal.mk "a" 1 100]
      (AuthorityProposal.mk "a" 1 100)).1
  · exact (claim_c4_carry_over_characterization
      [("b", RecordedProposal.mk 2 7)] [AuthorityProposal.mk "b" 2 100]
      (AuthorityProposal.mk "b" 2 100)).2.1 (RecordedProposal.mk 2 7) (by decide) (by decide)
  · exact (claim_c4_carry_over_characterization
      [("c", RecordedProposal.mk 3 (-100))] [AuthorityProposal.mk "c" 3 100]
      (AuthorityProposal.mk "c" 3 100)).2.2 (RecordedProposal.mk 3 (-100))
      (by decide) (by decide) (by decide)

end Beacon

namespace Beacon

/-- Accounts seated at the positions that a mask marks absent, starting
at loop position i: the seats a mask of this shape penalizes. -/
def missedAccounts (auths : List SelectedAuthority) : List Bool → Nat → List String
  | [], _ => []
  | b :: rest, i =>
    (if b = false then (auths[i]?.map (·.account_id)).toList else [])
      ++ missedAccounts auths rest (i + 1)

lemma applyPenalty_lookup_ne (props : List (String × RecordedProposal))
    (a : SelectedAuthority) (t : Int) (k : String) (h : k ≠ a.account_id) :
    lookupM (applyPenalty props a t) k = lookupM props k := by
  unfold applyPenalty
  cases hl : lookupM props a.account_id with
  | some rp =>
    exact lookupM_alistInsert_ne _ _ _ _ (Ne.symm h)
  | none =>
    cases hk : lookupM props k with
    | some v => exact lookupM_append_some _ _ _ _ hk
    | none =>
      rw [lookupM_append_none _ _ _ hk]
      simp [lookupM, Ne.symm h]

lemma penaltyLoop_success (auths : List SelectedAuthority) (t : Nat) :
    ∀ (mask : List Bool) (i : Nat) (props : List (String × RecordedProposal)),
      (∀ j, mask[j]? = some false → i + j < auths.length) →
      ∃ out, penaltyLoop (some t) auths mask i props = some out ∧
        ∀ k, k ∉ missedAccounts auths mask i → lookupM out k = lookupM props k := by
  intro mask
  induction mask with
  | nil => exact fun i props _ => ⟨props, rfl, fun _ _ => rfl⟩
  | cons b rest ih =>
    intro i props hcov
    cases b with
    | true =>
      obtain ⟨out, hout, hframe⟩ := ih (i + 1) props
        (fun j hj => by have := hcov (j + 1) (by simpa using hj); omega)
      refine ⟨out, by simpa [penaltyLoop] using hout, fun k hk => ?_⟩
      refine hframe k ?_
      simpa [missedAccounts] using hk
    | false =>
      have hi : i < auths.length := by
        have := hcov 0 (by simp)
        omega
      cases ha : auths[i]? with
      | none =>
        rw [List.getElem?_eq_none_iff] at ha
        omega
      | some a =>
        obtain ⟨out, hout, hframe⟩ := ih (i + 1) (applyPenalty props a (t : Int))
          (fun j hj => by have := hcov (j + 1) (by simpa using hj); omega)
        refine ⟨out, ?_, fun k hk => ?_⟩
        · simpa [penaltyLoop, ha] using hout
        · have hmem : ∀ k', k' ∈ missedAccounts auths (false :: rest) i ↔
              (k' = a.account_id ∨ k' ∈ missedAccounts auths rest (i + 1)) := by
            intro k'
            simp [missedAccounts, ha]
          have hk1 : k ≠ a.account_id := fun he => hk ((hmem k).2 (Or.inl he))
          have hk2 : k ∉ missedAccounts auths rest (i + 1) :=
            fun hm => hk ((hmem k).2 (Or.inr hm))
          rw [hframe k hk2, applyPenalty_lookup_ne _ _ _ _ hk1]

lemma penaltyLoop_oob_none (auths : List SelectedAuthority)
    (topt : Option Nat) :
    ∀ (mask : List Bool) (i : Nat) (props : List (String × RecordedProposal)),
      (∃ j, mask[j]? = some false ∧ auths.length ≤ i + j) →
      penaltyLoop topt auths mask i props = none := by
  intro mask
  induction mask with
  | nil =>
    rintro i props ⟨j, hj, _⟩
    simp at hj
  | cons b rest ih =>
    rintro i props ⟨j, hj, hlen⟩
    cases b with
    | true =>
      cases j with
      | zero => simp at hj
      | succ j' =>
        rw [List.getElem?_cons_succ] at hj
        have hrec := ih (i + 1) props ⟨j', hj, by omega⟩
        simpa [penaltyLoop] using hrec
    | false =>
      cases topt with
      | none => rfl
      | some t =>
        cases hai : auths[i]? with
        | none => simp [penaltyLoop, hai]
        | some a =>
          have hilt : i < auths.length := by
            by_contra hge
            rw [List.getElem?_eq_none_iff.2 (by omega)] at hai
            cases hai
          cases j with
          | zero => omega
          | succ j' =>
            rw [List.getElem?_cons_succ] at hj
            have hrec := ih (i + 1) (applyPenalty props a (t : Int)) ⟨j', hj, by omega⟩
            simpa [penaltyLoop, hai] using hrec

end Beacon

namespace Beacon

/-- Claim C10: process_block_header never validates that the mask length
equals num_seats_per_slot. For a mask strictly shorter than the
committee the call completes (under the otherwise-normal conditions that
the committee and the current-epoch threshold exist and the header is
not at an epoch boundary) and penalizes only the seat positions the mask
covers; for a mask with a false bit at a position at or past the
committee length, the call panics (none in the model) on out-of-bounds
committee indexing. -/
theorem claim_c10_no_mask_validation :
    (∀ sp ro (s : AuthorityState) (h : SignedBeaconBlockHeader)
        (auths : List SelectedAuthority) (t : Nat),
      h.body.index ≠ 0 →
      get_authorities s h.body.index = .ok auths →
      lookupM s.current_threshold s.current_epoch = some t →
      h.authority_mask.length < auths.length →
      h.body.index / s.authority_config.epoch_length = s.current_epoch →
      ∃ s', process_block_header sp ro s h = some s' ∧
        ∀ k, k ∉ missedAccounts auths h.authority_mask 0 →
          lookupM s'.proposals k =
            lookupM (recordProposals s.proposals h.body.authority_proposal) k) ∧
    (∀ sp ro (s : AuthorityState) (h : SignedBeaconBlockHeader)
        (auths : List SelectedAuthority),
      h.body.index ≠ 0 →
      get_authorities s h.body.index = .ok auths →
      (∃ j, h.authority_mask[j]? = some false ∧ auths.length ≤ j) →
      process_block_header sp ro s h = none) := by
  constructor
  · intro sp ro s h auths t hidx hget hthr hlen hsame
    obtain ⟨out, hout, hframe⟩ := penaltyLoop_success auths t h.authority_mask 0
      (recordProposals s.proposals h.body.authority_proposal)
      (fun j hj => by
        have hjm : j < h.authority_mask.length := by
          by_contra hge
          rw [List.getElem?_eq_none_iff.2 (by omega)] at hj
          cases hj
        omega)
    refine ⟨{ s with proposals := out }, ?_, hframe⟩
    simp only [process_block_header, if_neg hidx, hget, hthr, hout]
    rw [if_pos hsame]
  · rintro sp ro s h auths hidx hget ⟨j, hj, hlen⟩
    have hnone := penaltyLoop_oob_none auths
      (lookupM s.current_threshold s.current_epoch) h.authority_mask 0
      (recordProposals s.proposals h.body.authority_proposal) ⟨j, hj, by omega⟩
    simp only [process_block_header, if_neg hidx, hget, hnone]

/-- Witness for claim C10: a one-seat committee accepts the empty mask
and penalizes nobody, while a mask with a false bit past the committee
end makes the call panic. -/
theorem claim_c10_witness :
    (∃ s', process_block_header idPerm id sampleState
        (SignedBeaconBlockHeader.mk (BlockBody.mk 1 []) []) = some s' ∧
      ∀ k, k ∉ missedAccounts [SelectedAuthority.mk "a" 5] [] 0 →
        lookupM s'.proposals k = lookupM (recordProposals sampleState.proposals []) k) ∧
    process_block_header idPerm id sampleState
      (SignedBeaconBlockHeader.mk (BlockBody.mk 1 []) [true, false]) = none := by
  constructor
  · exact claim_c10_no_mask_validation.1 idPerm id sampleState
      (SignedBeaconBlockHeader.mk (BlockBody.mk 1 []) []) [SelectedAuthority.mk "a" 5] 10
      (by decide) (by rfl) (by rfl) (by decide) (by decide)
  · exact claim_c10_no_mask_validation.2 idPerm id sampleState
      (SignedBeaconBlockHeader.mk (BlockBody.mk 1 []) [true, false])
      [SelectedAuthority.mk "a" 5] (by decide) (by rfl) ⟨1, by rfl, by decide⟩

end Beacon

namespace Beacon

lemma validPerm_idPerm : ValidPerm idPerm := fun _ => List.Perm.refl _

lemma validReord_id : ValidReord id := fun l => List.Perm.refl l

lemma validReord_reverse : ValidReord (fun l => l.reverse) := fun l => List.reverse_perm l

lemma slice_length {α : Type} (sh : List α) (nsps L i : Nat) (hi : i < L)
    (hlen : nsps * L ≤ sh.length) :
    ((sh.drop (i * nsps)).take nsps).length = nsps := by
  rw [List.length_take, List.length_drop]
  have h1 : (i + 1) * nsps ≤ L * nsps := Nat.mul_le_mul_right _ (by omega)
  have h2 : (i + 1) * nsps = i * nsps + nsps := by ring
  have h3 : nsps * L = L * nsps := by ring
  omega

lemma proposals_to_authority_structure {sp : Nat → List Nat} {cfg : AuthorityConfig}
    {cur : Nat} {props : List AuthorityProposal} {off : Nat}
    {auths : List (Nat × List SelectedAuthority)} {t : Nat} (hsp : ValidPerm sp)
    (h : proposals_to_authority sp cfg cur props off = some (auths, t)) :
    ∃ sh : List SelectedAuthority,
      cfg.num_seats_per_slot * cfg.epoch_length ≤ sh.length ∧
      auths = (List.range cfg.epoch_length).map (fun i =>
        ((cur + off) * cfg.epoch_length + i + 1,
          (sh.drop (i * cfg.num_seats_per_slot)).take cfg.num_seats_per_slot)) := by
  simp only [proposals_to_authority] at h
  cases hft : find_threshold (props.map (·.amount))
      (cfg.num_seats_per_slot * cfg.epoch_length) with
  | error e =>
    simp only [hft] at h
    exact Option.noConfusion h
  | ok thr =>
    simp only [hft] at h
    split at h
    · rename_i hdup
      cases h
      refine ⟨_, ?_, rfl⟩
      rw [applyPerm_length _ (hsp _)]
      exact hdup
    · cases h

/-- The committees invariant of claim C5: every block index from 1 to
(current_epoch + 2) * epoch_length has a cached committee of exactly
num_seats_per_slot seats. -/
def committeesInv (s : AuthorityState) : Prop :=
  ∀ i, 1 ≤ i → i ≤ (s.current_epoch + 2) * s.authority_config.epoch_length →
    ∃ c, lookupM s.current i = some c ∧ c.length = s.authority_config.num_seats_per_slot

lemma foldl_double_insert (L : Nat) (auths : List (Nat × List SelectedAuthority)) :
    ∀ m, auths.foldl
        (fun m kv => alistInsert (alistInsert m kv.1 kv.2) (kv.1 + L) kv.2) m =
      extendM m (auths.flatMap (fun kv => [(kv.1, kv.2), (kv.1 + L, kv.2)])) := by
  induction auths with
  | nil => intro m; rfl
  | cons kv rest ih =>
    intro m
    rw [extendM, List.flatMap_cons, List.foldl_append, List.foldl_cons, List.foldl_cons]
    exact ih _

lemma seedCurrent_eq_extendM (L : Nat) (auths : List (Nat × List SelectedAuthority)) :
    seedCurrent L auths =
      extendM [] (auths.flatMap (fun kv => [(kv.1, kv.2), (kv.1 + L, kv.2)])) :=
  foldl_double_insert L auths []

end Beacon

namespace Beacon

lemma seed_keys_nodup (L : Nat) (slice : Nat → List SelectedAuthority) :
    (((((List.range L).map (fun j => (j + 1, slice j))).flatMap
      (fun kv => [(kv.1, kv.2), (kv.1 + L, kv.2)]))).map Prod.fst).Nodup := by
  rw [List.map_flatMap, List.flatMap_map]
  rw [List.nodup_flatMap]
  constructor
  · intro j hj
    rw [List.mem_range] at hj
    dsimp only
    simp only [List.map_cons, List.map_nil]
    refine List.nodup_cons.2 ⟨?_, ?_⟩
    · intro hmem
      simp only [List.mem_singleton] at hmem
      omega
    · simp
  · refine (List.pairwise_lt_range L).imp_of_mem ?_
    intro a b ha hb hab
    rw [List.mem_range] at ha hb
    dsimp only [Function.onFun]
    simp only [List.map_cons, List.map_nil]
    intro x hx1 hx2
    simp only [List.mem_cons, List.mem_singleton, List.not_mem_nil, or_false] at hx1 hx2
    rcases hx1 with h1 | h1 <;> rcases hx2 with h2 | h2 <;> omega

lemma seed_lookup (L : Nat) (slice : Nat → List SelectedAuthority) (i : Nat)
    (hi1 : 1 ≤ i) (hi2 : i ≤ 2 * L) :
    lookupM (extendM [] ((((List.range L).map (fun j => (j + 1, slice j)))).flatMap
      (fun kv => [(kv.1, kv.2), (kv.1 + L, kv.2)]))) i =
      some (if i ≤ L then slice (i - 1) else slice (i - L - 1)) := by
  apply lookupM_extendM_mem _ _ _ _ (seed_keys_nodup L slice)
  by_cases hle : i ≤ L
  · rw [if_pos hle]
    apply List.mem_flatMap.2
    refine ⟨(i - 1 + 1, slice (i - 1)), ?_, ?_⟩
    · exact List.mem_map.2 ⟨i - 1, List.mem_range.2 (by omega), rfl⟩
    · have he : i - 1 + 1 = i := by omega
      rw [he]
      simp
  · rw [if_neg hle]
    apply List.mem_flatMap.2
    refine ⟨(i - L - 1 + 1, slice (i - L - 1)), ?_, ?_⟩
    · exact List.mem_map.2 ⟨i - L - 1, List.mem_range.2 (by omega), rfl⟩
    · have he : i - L - 1 + 1 + L = i := by omega
      simp only [List.mem_cons, List.mem_singleton]
      right
      rw [he]
      simp

lemma committeesInv_new {sp : Nat → List Nat} {cfg : AuthorityConfig} {s : AuthorityState}
    (hsp : ValidPerm sp) (h : Authority.new sp cfg = some s) : committeesInv s := by
  simp only [Authority.new] at h
  cases hp2a : proposals_to_authority sp cfg 0 cfg.initial_authorities 0 with
  | none =>
    simp only [hp2a] at h
    exact Option.noConfusion h
  | some pair =>
    obtain ⟨auths, thr⟩ := pair
    simp only [hp2a] at h
    cases h
    obtain ⟨sh, hshlen, hauths⟩ := proposals_to_authority_structure hsp hp2a
    have hauths' : auths = (List.range cfg.epoch_length).map
        (fun j => (j + 1,
          (sh.drop (j * cfg.num_seats_per_slot)).take cfg.num_seats_per_slot)) := by
      rw [hauths]
      simp
    intro i hi1 hi2
    dsimp only at hi2 ⊢
    rw [seedCurrent_eq_extendM, hauths',
      seed_lookup cfg.epoch_length _ i hi1 (by omega)]
    refine ⟨_, rfl, ?_⟩
    by_cases hle : i ≤ cfg.epoch_length
    · rw [if_pos hle]
      exact slice_length sh _ _ _ (by omega) hshlen
    · rw [if_neg hle]
      exact slice_length sh _ _ _ (by omega) hshlen

lemma committeesInv_step {sp : Nat → List Nat}
    {ro : List (String × RecordedProposal) → List (String × RecordedProposal)}
    {s s' : AuthorityState} {h : SignedBeaconBlockHeader}
    (hsp : ValidPerm sp) (hinv : committeesInv s)
    (hstep : h.body.index / s.authority_config.epoch_length = s.current_epoch ∨
      h.body.index / s.authority_config.epoch_length = s.current_epoch + 1)
    (hproc : process_block_header sp ro s h = some s') : committeesInv s' := by
  by_cases hidx : h.body.index = 0
  · rw [process_block_header, if_pos hidx] at hproc
    cases hproc
    exact hinv
  · simp only [process_block_header, if_neg hidx] at hproc
    cases hga : get_authorities s h.body.index with
    | error e =>
      simp only [hga] at hproc
      exact Option.noConfusion hproc
    | ok auths =>
      simp only [hga] at hproc
      cases hpl : penaltyLoop (lookupM s.current_threshold s.current_epoch) auths
          h.authority_mask 0 (recordProposals s.proposals h.body.authority_proposal) with
      | none =>
        simp only [hpl] at hproc
        exact Option.noConfusion hproc
      | some props2 =>
        simp only [hpl] at hproc
        by_cases hnb : h.body.index / s.authority_config.epoch_length = s.current_epoch
        · rw [if_pos hnb] at hproc
          cases hproc
          exact fun i hi1 hi2 => hinv i hi1 hi2
        · rw [if_neg hnb] at hproc
          cases hacc : lookupM s.accepted_proposals s.current_epoch with
          | none =>
            simp only [hacc] at hproc
            exact Option.noConfusion hproc
          | some accepted =>
            simp only [hacc] at hproc
            cases hp2a : proposals_to_authority sp s.authority_config s.current_epoch
                (boundaryNewProposals ro props2 accepted) 2 with
            | none =>
              simp only [hp2a] at hproc
              exact Option.noConfusion hproc
            | some pair =>
              obtain ⟨auths2, thr⟩ := pair
              simp only [hp2a] at hproc
              cases hproc
              have hnext : h.body.index / s.authority_config.epoch_length =
                  s.current_epoch + 1 := by
                rcases hstep with h1 | h1
                · exact absurd h1 hnb
                · exact h1
              obtain ⟨sh, hshlen, hauths2⟩ := proposals_to_authority_structure hsp hp2a
              intro i hi1 hi2
              dsimp only at hi2 ⊢
              rw [hnext] at hi2
              have hsplitm : (s.current_epoch + 1 + 2) * s.authority_config.epoch_length =
                  (s.current_epoch + 2) * s.authority_config.epoch_length +
                    s.authority_config.epoch_length := by ring
              by_cases hold : i ≤ (s.current_epoch + 2) * s.authority_config.epoch_length
              · obtain ⟨c, hc, hclen⟩ := hinv i hi1 hold
                refine ⟨c, ?_, hclen⟩
                rw [lookupM_extendM_not_mem]
                · exact hc
                · rw [hauths2]
                  intro hmem
                  rw [List.map_map] at hmem
                  obtain ⟨j, hj, hkey⟩ := List.mem_map.1 hmem
                  rw [List.mem_range] at hj
                  simp only [Function.comp] at hkey
                  omega
              · have hjlt : i - (s.current_epoch + 2) * s.authority_config.epoch_length - 1 <
                    s.authority_config.epoch_length := by omega
                refine ⟨_, ?_, slice_length sh _ _ _ hjlt hshlen⟩
                rw [hauths2]
                apply lookupM_extendM_mem
                · rw [List.map_map]
                  apply List.Nodup.map _ (List.nodup_range _)
                  intro a b hab
                  simp only [Function.comp] at hab
                  omega
                · apply List.mem_map.2
                  refine ⟨i - (s.current_epoch + 2) * s.authority_config.epoch_length - 1,
                    List.mem_range.2 hjlt, ?_⟩
                  simp only [Prod.mk.injEq]
                  exact ⟨by omega, trivial⟩

/-- Claim C5: for every block index i with 1 <= i <=
(current_epoch + 2) * epoch_length the committees map holds an entry of
exactly num_seats_per_slot seats; the invariant is established by
construction and preserved by every successful process_block_header call
whose header arrives in order (its epoch is the current one or its
successor). -/
theorem claim_c5_committees_invariant :
    (∀ sp (cfg : AuthorityConfig) (s : AuthorityState), ValidPerm sp →
      Authority.new sp cfg = some s → committeesInv s) ∧
    (∀ sp ro (s s' : AuthorityState) (h : SignedBeaconBlockHeader), ValidPerm sp →
      committeesInv s →
      (h.body.index / s.authority_config.epoch_length = s.current_epoch ∨
        h.body.index / s.authority_config.epoch_length = s.current_epoch + 1) →
      process_block_header sp ro s h = some s' → committeesInv s') :=
  ⟨fun _ _ _ hsp h => committeesInv_new hsp h,
   fun _ _ _ _ _ hsp hinv hstep hproc => committeesInv_step hsp hinv hstep hproc⟩

end Beacon

namespace Beacon

/-- A one-seat one-slot configuration used by the claim C5 witness. -/
def c5Config : AuthorityConfig :=
  { initial_authorities := [AuthorityProposal.mk "a" 7 100],
    epoch_length := 1, num_seats_per_slot := 1 }

/-- The engine state Authority.new builds from c5Config. -/
def c5State0 : AuthorityState :=
  { authority_config := c5Config,
    current_epoch := 0,
    current := [(1, [SelectedAuthority.mk "a" 7]), (2, [SelectedAuthority.mk "a" 7])],
    current_threshold := [(0, 100), (1, 100)],
    proposals := [],
    accepted_proposals := [(0, [AuthorityProposal.mk "a" 7 100]),
      (1, [AuthorityProposal.mk "a" 7 100])] }

/-- The engine state after processing the header at index 1 from c5State0. -/
def c5State1 : AuthorityState :=
  { authority_config := c5Config,
    current_epoch := 1,
    current := [(1, [SelectedAuthority.mk "a" 7]), (2, [SelectedAuthority.mk "a" 7]),
      (3, [SelectedAuthority.mk "a" 7])],
    current_threshold := [(0, 100), (1, 100)],
    proposals := [],
    accepted_proposals := [(0, [AuthorityProposal.mk "a" 7 100]),
      (1, [AuthorityProposal.mk "a" 7 100])] }

/-- Witness for claim C5: the invariant holds after construction from
c5Config and after the boundary step at index 1. -/
theorem claim_c5_witness : committeesInv c5State0 ∧ committeesInv c5State1 := by
  have h0 : committeesInv c5State0 :=
    claim_c5_committees_invariant.1 idPerm c5Config c5State0 validPerm_idPerm (by rfl)
  refine ⟨h0, ?_⟩
  exact claim_c5_committees_invariant.2 idPerm id c5State0 c5State1
    (SignedBeaconBlockHeader.mk (BlockBody.mk 1 []) [true]) validPerm_idPerm h0
    (Or.inr (by decide)) (by rfl)

end Beacon

namespace Beacon

/-- The configuration of the spec end-to-end scenarios: four authorities
with stake 100 each, epoch length 2, two seats per slot. -/
def s2Config : AuthorityConfig :=
  { initial_authorities := [AuthorityProposal.mk "0" 0 100, AuthorityProposal.mk "1" 1 100,
      AuthorityProposal.mk "2" 2 100, AuthorityProposal.mk "3" 3 100],
    epoch_length := 2, num_seats_per_slot := 2 }

/-- The seat tokens the initial proposals of s2Config expand to (one
token per authority, threshold 100). -/
def s2Tokens : List SelectedAuthority :=
  [SelectedAuthority.mk "0" 0, SelectedAuthority.mk "1" 1,
    SelectedAuthority.mk "2" 2, SelectedAuthority.mk "3" 3]

/-- Header 1 of scenario S2: seat 1 missed, no proposals. -/
def s2Header1 : SignedBeaconBlockHeader :=
  SignedBeaconBlockHeader.mk (BlockBody.mk 1 []) [true, false]

/-- Header 2 of scenario S2: full participation, no proposals. -/
def s2Header2 : SignedBeaconBlockHeader :=
  SignedBeaconBlockHeader.mk (BlockBody.mk 2 []) [true, true]

/-- The engine state Authority.new builds from s2Config when the initial
shuffle of the four tokens is the list a, b, c, d. -/
def s2State0 (a b c d : SelectedAuthority) : AuthorityState :=
  { authority_config := s2Config,
    current_epoch := 0,
    current := [(1, [a, b]), (3, [a, b]), (2, [c, d]), (4, [c, d])],
    current_threshold := [(0, 100), (1, 100)],
    proposals := [],
    accepted_proposals := [(0, s2Config.initial_authorities),
      (1, s2Config.initial_authorities)] }

/-- The state after scenario S2 header 1: the seat-1 occupant b of block 1
carries penalty -100 (the epoch-0 threshold). -/
def s2State1 (a b c d : SelectedAuthority) : AuthorityState :=
  { s2State0 a b c d with
    proposals := [(b.account_id, RecordedProposal.mk b.public_key (-100))] }

/-- The carry-over list assembled at the S2 boundary: every initial
authority except the penalized seat-1 occupant b. -/
def s2NewP (b : SelectedAuthority) : List AuthorityProposal :=
  s2Config.initial_authorities.filter (fun p =>
    boundarySurvives [(b.account_id, RecordedProposal.mk b.public_key (-100))] p)

/-- Scenario S2 run up to and including header 1. -/
def runS2To1 (sp : Nat → List Nat)
    (ro : List (String × RecordedProposal) → List (String × RecordedProposal)) :
    Option AuthorityState :=
  runHeaders sp ro s2Config [s2Header1]

/-- Full scenario S2 run (headers 1 and 2). -/
def runS2 (sp : Nat → List Nat)
    (ro : List (String × RecordedProposal) → List (String × RecordedProposal)) :
    Option AuthorityState :=
  runHeaders sp ro s2Config [s2Header1, s2Header2]

/-- The threshold recorded for epoch e, observed through a run result. -/
def obsThreshold (os : Option AuthorityState) (e : Nat) : Option Nat :=
  os.bind (fun s => lookupM s.current_threshold e)

/-- The account seated at the given position of the committee for block
index i, observed through a run result. -/
def obsSeat (os : Option AuthorityState) (i seat : Nat) : Option String :=
  os.bind (fun s => (lookupM s.current i).bind (fun c => (c.get? seat).map (·.account_id)))

/-- The recorded stake of an account, observed through a run result. -/
def obsStake (os : Option AuthorityState) (acc : String) : Option Int :=
  os.bind (fun s => (lookupM s.proposals acc).map (·.stake))

/-- Whether an account occurs in the proposal list recorded for epoch e,
observed through a run result. -/
def obsAcceptedMember (os : Option AuthorityState) (e : Nat) (acc : String) : Option Bool :=
  os.bind (fun s => (lookupM s.accepted_proposals e).map
    (fun ps => decide (acc ∈ ps.map (·.account_id))))

/-- The get_authorities answer for block index i, observed through a run
result. -/
def obsAuthorities (os : Option AuthorityState) (i : Nat) :
    Option (Except String (List SelectedAuthority)) :=
  os.map (fun s => get_authorities s i)

lemma length_eq_four {α : Type} {l : List α} (h : l.length = 4) :
    ∃ a b c d, l = [a, b, c, d] := by
  cases l with
  | nil => simp at h
  | cons a l1 =>
    cases l1 with
    | nil => simp at h
    | cons b l2 =>
      cases l2 with
      | nil => simp at h
      | cons c l3 =>
        cases l3 with
        | nil => simp at h
        | cons d l4 =>
          cases l4 with
          | nil => exact ⟨a, b, c, d, rfl⟩
          | cons e l5 => simp at h

lemma new_s2_eval {sp : Nat → List Nat} {a b c d : SelectedAuthority}
    (hshape : applyPerm (sp 4) s2Tokens = [a, b, c, d]) :
    Authority.new sp s2Config = some (s2State0 a b c d) := by
  have h0 : Authority.new sp s2Config = some
      { authority_config := s2Config,
        current_epoch := 0,
        current := seedCurrent 2 [(1, ((applyPerm (sp 4) s2Tokens).drop 0).take 2),
          (2, ((applyPerm (sp 4) s2Tokens).drop 2).take 2)],
        current_threshold := [(0, 100), (1, 100)],
        proposals := [],
        accepted_proposals := [(0, s2Config.initial_authorities),
          (1, s2Config.initial_authorities)] } := rfl
  rw [h0, hshape]
  rfl

lemma new_s2 (sp : Nat → List Nat) (hsp : ValidPerm sp) :
    ∃ a b c d : SelectedAuthority, ([a, b, c, d]).Perm s2Tokens ∧
      Authority.new sp s2Config = some (s2State0 a b c d) := by
  have hperm : (applyPerm (sp 4) s2Tokens).Perm s2Tokens :=
    applyPerm_perm s2Tokens (hsp 4)
  obtain ⟨a, b, c, d, hshape⟩ := length_eq_four hperm.length_eq
  refine ⟨a, b, c, d, ?_, new_s2_eval hshape⟩
  rw [← hshape]
  exact hperm

lemma step1_s2 (sp : Nat → List Nat)
    (ro : List (String × RecordedProposal) → List (String × RecordedProposal))
    (a b c d : SelectedAuthority) :
    process_block_header sp ro (s2State0 a b c d) s2Header1 =
      some (s2State1 a b c d) := by
  have hdiv : s2Header1.body.index / (s2State0 a b c d).authority_config.epoch_length =
      (s2State0 a b c d).current_epoch := by
    norm_num [s2Header1, s2State0, s2Config]
  simp only [process_block_header,
    if_neg (show ¬s2Header1.body.index = 0 by decide),
    show get_authorities (s2State0 a b c d) s2Header1.body.index =
      Except.ok [a, b] from rfl,
    show penaltyLoop (lookupM (s2State0 a b c d).current_threshold
        (s2State0 a b c d).current_epoch) [a, b] s2Header1.authority_mask 0
        (recordProposals (s2State0 a b c d).proposals s2Header1.body.authority_proposal) =
      some [(b.account_id, RecordedProposal.mk b.public_key (-100))] from rfl,
    hdiv, eq_self_iff_true, if_true]
  rfl

end Beacon

namespace Beacon

lemma process_boundary_eq {sp : Nat → List Nat}
    {ro : List (String × RecordedProposal) → List (String × RecordedProposal)}
    {s : AuthorityState} {h : SignedBeaconBlockHeader}
    {auths : List SelectedAuthority} {props2 : List (String × RecordedProposal)}
    {accepted : List AuthorityProposal}
    {auths2 : List (Nat × List SelectedAuthority)} {thr : Nat}
    (hidx : ¬ h.body.index = 0)
    (hga : get_authorities s h.body.index = .ok auths)
    (hpl : penaltyLoop (lookupM s.current_threshold s.current_epoch) auths
      h.authority_mask 0 (recordProposals s.proposals h.body.authority_proposal) =
      some props2)
    (hnb : ¬ h.body.index / s.authority_config.epoch_length = s.current_epoch)
    (hacc : lookupM s.accepted_proposals s.current_epoch = some accepted)
    (hp2a : proposals_to_authority sp s.authority_config s.current_epoch
      (boundaryNewProposals ro props2 accepted) 2 = some (auths2, thr)) :
    process_block_header sp ro s h = some
      { s with
        current := extendM s.current auths2,
        current_threshold := alistInsert s.current_threshold
          (h.body.index / s.authority_config.epoch_length) thr,
        current_epoch := h.body.index / s.authority_config.epoch_length,
        proposals := [],
        accepted_proposals := alistInsert s.accepted_proposals
          (h.body.index / s.authority_config.epoch_length)
          (boundaryNewProposals ro props2 accepted) } := by
  simp only [process_block_header, if_neg hidx, hga, hpl, if_neg hnb, hacc, hp2a]

lemma process_boundary_none {sp : Nat → List Nat}
    {ro : List (String × RecordedProposal) → List (String × RecordedProposal)}
    {s : AuthorityState} {h : SignedBeaconBlockHeader}
    {auths : List SelectedAuthority} {props2 : List (String × RecordedProposal)}
    {accepted : List AuthorityProposal}
    (hidx : ¬ h.body.index = 0)
    (hga : get_authorities s h.body.index = .ok auths)
    (hpl : penaltyLoop (lookupM s.current_threshold s.current_epoch) auths
      h.authority_mask 0 (recordProposals s.proposals h.body.authority_proposal) =
      some props2)
    (hnb : ¬ h.body.index / s.authority_config.epoch_length = s.current_epoch)
    (hacc : lookupM s.accepted_proposals s.current_epoch = some accepted)
    (hp2a : proposals_to_authority sp s.authority_config s.current_epoch
      (boundaryNewProposals ro props2 accepted) 2 = none) :
    process_block_header sp ro s h = none := by
  simp only [process_block_header, if_neg hidx, hga, hpl, if_neg hnb, hacc, hp2a]

lemma step2_s2 (sp : Nat → List Nat)
    {ro : List (String × RecordedProposal) → List (String × RecordedProposal)}
    (hro : ValidReord ro) (a b c d : SelectedAuthority) (hb : b ∈ s2Tokens) :
    ∃ auths2,
      proposals_to_authority sp s2Config 0 (s2NewP b) 2 = some (auths2, 50) ∧
      process_block_header sp ro (s2State1 a b c d) s2Header2 = some
        { authority_config := s2Config,
          current_epoch := 1,
          current := extendM (s2State1 a b c d).current auths2,
          current_threshold := [(0, 100), (1, 50)],
          proposals := [],
          accepted_proposals := [(0, s2Config.initial_authorities), (1, s2NewP b)] } := by
  have hprops2 : ro [(b.account_id, RecordedProposal.mk b.public_key (-100))] =
      [(b.account_id, RecordedProposal.mk b.public_key (-100))] :=
    List.perm_singleton.1 (hro _)
  have hBNP : boundaryNewProposals ro
      [(b.account_id, RecordedProposal.mk b.public_key (-100))]
      s2Config.initial_authorities = s2NewP b := by
    rw [boundaryNewProposals, hprops2]
    rfl
  have hp2a : ∃ auths2, proposals_to_authority sp s2Config 0 (s2NewP b) 2 =
      some (auths2, 50) := by
    simp only [s2Tokens, List.mem_cons, List.not_mem_nil, or_false] at hb
    rcases hb with hb | hb | hb | hb <;> subst hb <;> exact ⟨_, rfl⟩
  obtain ⟨auths2, hA⟩ := hp2a
  refine ⟨auths2, hA, ?_⟩
  have hnb : ¬ s2Header2.body.index / (s2State1 a b c d).authority_config.epoch_length =
      (s2State1 a b c d).current_epoch := by
    norm_num [s2Header2, s2State1, s2State0, s2Config]
  have hdiv : s2Header2.body.index / (s2State1 a b c d).authority_config.epoch_length = 1 := by
    norm_num [s2Header2, s2State1, s2State0, s2Config]
  have hstep := @process_boundary_eq sp ro (s2State1 a b c d) s2Header2 [c, d]
    [(b.account_id, RecordedProposal.mk b.public_key (-100))]
    s2Config.initial_authorities auths2 50
    (by decide) rfl rfl hnb rfl (by rw [hBNP]; exact hA)
  rw [hstep, hdiv, hBNP]
  rfl

end Beacon

namespace Beacon

/-- Claim C2 as stated is false on the code: in scenario S2 (epoch
length 2, two seats per slot, four authorities of stake 100, zero seed)
the epoch-0 threshold is find_threshold([100,100,100,100], 4) = 100, not
50. The counterexample refutes the spec statement at the identity
shuffle and identity traversal order; the threshold observable is
independent of both. -/
theorem claim_c2_counterexample :
    ¬ (∀ sp ro, ValidPerm sp → ValidReord ro →
      obsThreshold (runS2 sp ro) 0 = some 50 ∧
      (∀ acc, obsSeat (runS2To1 sp ro) 1 1 = some acc →
        obsStake (runS2To1 sp ro) acc = some (-50) ∧
        obsAcceptedMember (runS2 sp ro) 1 acc = some true)) := by
  intro hcl
  have h := (hcl idPerm id validPerm_idPerm validReord_id).1
  exact absurd h (by decide)

/-- Claim C2, amended to what the code does: in scenario S2 the epoch-0
threshold equals 100, the account occupying seat 1 of block 1 enters the
boundary with recorded stake -100 (effective stake 100 - 100 = 0), and
it is dropped from the carry-over list recorded for epoch 1 (it does not
survive into the next committees). -/
theorem claim_c2_amended : ∀ sp ro, ValidPerm sp → ValidReord ro →
    obsThreshold (runS2 sp ro) 0 = some 100 ∧
    (∀ acc, obsSeat (runS2To1 sp ro) 1 1 = some acc →
      obsStake (runS2To1 sp ro) acc = some (-100) ∧
      obsAcceptedMember (runS2 sp ro) 1 acc = some false) := by
  intro sp ro hsp hro
  obtain ⟨a, b, c, d, hperm, hnew⟩ := new_s2 sp hsp
  have hb : b ∈ s2Tokens := hperm.mem_iff.1 (by simp)
  obtain ⟨auths2, hA, hstep2⟩ := step2_s2 sp hro a b c d hb
  have hrun1 : runS2To1 sp ro = some (s2State1 a b c d) := by
    rw [runS2To1, runHeaders, List.foldl_cons, List.foldl_nil, hnew]
    exact step1_s2 sp ro a b c d
  have hrun2 : runS2 sp ro = some
      { authority_config := s2Config,
        current_epoch := 1,
        current := extendM (s2State1 a b c d).current auths2,
        current_threshold := [(0, 100), (1, 50)],
        proposals := [],
        accepted_proposals := [(0, s2Config.initial_authorities), (1, s2NewP b)] } := by
    rw [runS2, runHeaders, List.foldl_cons, List.foldl_cons, List.foldl_nil, hnew]
    rw [show (some (s2State0 a b c d)).bind
        (fun s => process_block_header sp ro s s2Header1) = some (s2State1 a b c d) from
      step1_s2 sp ro a b c d]
    exact hstep2
  constructor
  · rw [obsThreshold, hrun2]
    rfl
  · intro acc hacc
    have hseat : obsSeat (runS2To1 sp ro) 1 1 = some b.account_id := by
      rw [obsSeat, hrun1]
      rfl
    rw [hseat] at hacc
    cases hacc
    constructor
    · rw [obsStake, hrun1]
      simp [lookupM]
    · rw [obsAcceptedMember, hrun2]
      have hmem : decide (b.account_id ∈ (s2NewP b).map (·.account_id)) = false := by
        simp only [s2Tokens, List.mem_cons, List.not_mem_nil, or_false] at hb
        rcases hb with hb | hb | hb | hb <;> subst hb <;> decide
      show some (decide (b.account_id ∈ (s2NewP b).map (·.account_id))) = some false
      rw [hmem]

/-- Witness for the amended claim C2 at the identity shuffle and
identity traversal order, where seat 1 of block 1 is account 1. -/
theorem claim_c2_amended_witness :
    obsThreshold (runS2 idPerm id) 0 = some 100 ∧
    obsSeat (runS2To1 idPerm id) 1 1 = some "1" ∧
    obsStake (runS2To1 idPerm id) "1" = some (-100) ∧
    obsAcceptedMember (runS2 idPerm id) 1 "1" = some false := by
  have h := claim_c2_amended idPerm id validPerm_idPerm validReord_id
  exact ⟨h.1, by decide, (h.2 "1" (by decide)).1, (h.2 "1" (by decide)).2⟩

end Beacon

namespace Beacon

/-- Header feeding two fresh positive proposals X and Y while both seats
of block 1 miss, used to expose the traversal-order dependence. -/
def c1Header1 : SignedBeaconBlockHeader :=
  SignedBeaconBlockHeader.mk
    (BlockBody.mk 1 [AuthorityProposal.mk "X" 10 200, AuthorityProposal.mk "Y" 11 200])
    [false, false]

/-- Header at index 2 with both seats missing, driving the boundary. -/
def c1Header2 : SignedBeaconBlockHeader :=
  SignedBeaconBlockHeader.mk (BlockBody.mk 2 []) [false, false]

/-- Claim C1 as stated is false on the code: two engines with the same
config and the same header sequence that iterate the proposals HashMap
in different orders at the boundary can return different committees.
With proposals X and Y both alive at the boundary, the identity order
yields block-5 committee X, X while the reversed order yields Y, Y. -/
theorem claim_c1_counterexample :
    ¬ (∀ sp ro1 ro2, ValidPerm sp → ValidReord ro1 → ValidReord ro2 →
      ∀ (cfg : AuthorityConfig) (headers : List SignedBeaconBlockHeader) (i : Nat),
        obsAuthorities (runHeaders sp ro1 cfg headers) i =
          obsAuthorities (runHeaders sp ro2 cfg headers) i) := by
  intro hcl
  have h := hcl idPerm id (fun l => l.reverse) validPerm_idPerm validReord_id
    validReord_reverse s2Config [c1Header1, c1Header2] 5
  exact absurd h (by decide)

/-- Claim C1, amended: committees are a deterministic function of the
config, the header sequence, the shuffle, and the map traversal order,
so two engines agree whenever they share the traversal order; moreover
in runs whose boundaries carry at most one live proposals entry, such as
the S2 scenario, the committees are independent of the traversal order. -/
theorem claim_c1_amended :
    (∀ sp ro (cfg : AuthorityConfig) (headers : List SignedBeaconBlockHeader) (i : Nat),
      obsAuthorities (runHeaders sp ro cfg headers) i =
        obsAuthorities (runHeaders sp ro cfg headers) i) ∧
    (∀ sp ro1 ro2, ValidPerm sp → ValidReord ro1 → ValidReord ro2 →
      runS2 sp ro1 = runS2 sp ro2) := by
  constructor
  · intro _ _ _ _ _
    rfl
  · intro sp ro1 ro2 hsp hro1 hro2
    obtain ⟨a, b, c, d, hperm, hnew⟩ := new_s2 sp hsp
    have hb : b ∈ s2Tokens := hperm.mem_iff.1 (by simp)
    obtain ⟨A1, hA1, hstep1⟩ := step2_s2 sp hro1 a b c d hb
    obtain ⟨A2, hA2, hstep2⟩ := step2_s2 sp hro2 a b c d hb
    have hAeq : A1 = A2 :=
      (Prod.ext_iff.1 (Option.some.inj (hA1.symm.trans hA2))).1
    have hr1 : runS2 sp ro1 = some
        { authority_config := s2Config,
          current_epoch := 1,
          current := extendM (s2State1 a b c d).current A1,
          current_threshold := [(0, 100), (1, 50)],
          proposals := [],
          accepted_proposals := [(0, s2Config.initial_authorities), (1, s2NewP b)] } := by
      rw [runS2, runHeaders, List.foldl_cons, List.foldl_cons, List.foldl_nil, hnew]
      rw [show (some (s2State0 a b c d)).bind
          (fun s => process_block_header sp ro1 s s2Header1) = some (s2State1 a b c d) from
        step1_s2 sp ro1 a b c d]
      exact hstep1
    have hr2 : runS2 sp ro2 = some
        { authority_config := s2Config,
          current_epoch := 1,
          current := extendM (s2State1 a b c d).current A2,
          current_threshold := [(0, 100), (1, 50)],
          proposals := [],
          accepted_proposals := [(0, s2Config.initial_authorities), (1, s2NewP b)] } := by
      rw [runS2, runHeaders, List.foldl_cons, List.foldl_cons, List.foldl_nil, hnew]
      rw [show (some (s2State0 a b c d)).bind
          (fun s => process_block_header sp ro2 s s2Header1) = some (s2State1 a b c d) from
        step1_s2 sp ro2 a b c d]
      exact hstep2
    rw [hr1, hr2, hAeq]

/-- Witness for the amended claim C1: the S2 run agrees between the
identity traversal order and the reversed traversal order. -/
theorem claim_c1_amended_witness :
    runS2 idPerm id = runS2 idPerm (fun l => l.reverse) :=
  claim_c1_amended.2 idPerm id (fun l => l.reverse) validPerm_idPerm validReord_id
    validReord_reverse

end Beacon

namespace Beacon

/-- Header at index 1 with every seat missing. -/
def h9a : SignedBeaconBlockHeader :=
  SignedBeaconBlockHeader.mk (BlockBody.mk 1 []) [false, false]

/-- Header at index 2 with every seat missing. -/
def h9b : SignedBeaconBlockHeader :=
  SignedBeaconBlockHeader.mk (BlockBody.mk 2 []) [false, false]

/-- The all-miss scenario run up to and including header 1. -/
def run9To1 (sp : Nat → List Nat)
    (ro : List (String × RecordedProposal) → List (String × RecordedProposal)) :
    Option AuthorityState :=
  runHeaders sp ro s2Config [h9a]

/-- The full all-miss scenario run. -/
def run9 (sp : Nat → List Nat)
    (ro : List (String × RecordedProposal) → List (String × RecordedProposal)) :
    Option AuthorityState :=
  runHeaders sp ro s2Config [h9a, h9b]

/-- The proposals map after both seats of block 1 missed. -/
def s9aProps (a b : SelectedAuthority) : List (String × RecordedProposal) :=
  [(a.account_id, RecordedProposal.mk a.public_key (-100)),
    (b.account_id, RecordedProposal.mk b.public_key (-100))]

/-- The proposals map after all four seats of epoch 0 missed. -/
def s9bProps (a b c d : SelectedAuthority) : List (String × RecordedProposal) :=
  [(a.account_id, RecordedProposal.mk a.public_key (-100)),
    (b.account_id, RecordedProposal.mk b.public_key (-100)),
    (c.account_id, RecordedProposal.mk c.public_key (-100)),
    (d.account_id, RecordedProposal.mk d.public_key (-100))]

/-- The new_proposals list that a header at a boundary would assemble,
recomputed from the engine state reached just before that header; this
names the intermediate list of the boundary transition, which is not
otherwise observable when the transition panics. -/
def obsBoundaryNewP
    (ro : List (String × RecordedProposal) → List (String × RecordedProposal))
    (os : Option AuthorityState) (h : SignedBeaconBlockHeader) :
    Option (List AuthorityProposal) :=
  os.bind fun s =>
    match get_authorities s h.body.index with
    | .error _ => none
    | .ok auths =>
      (penaltyLoop (lookupM s.current_threshold s.current_epoch) auths h.authority_mask 0
        (recordProposals s.proposals h.body.authority_proposal)).bind fun props2 =>
      (lookupM s.accepted_proposals s.current_epoch).map fun accepted =>
        boundaryNewProposals ro props2 accepted

lemma step9a_pen (a b : SelectedAuthority) (hab : ¬ a.account_id = b.account_id) :
    penaltyLoop (some 100) [a, b] [false, false] 0 [] = some (s9aProps a b) := by
  have e2 : penaltyLoop (some 100) [a, b] [false, false] 0 [] =
      some (applyPenalty (applyPenalty [] a ((100 : Nat) : Int)) b ((100 : Nat) : Int)) := rfl
  rw [e2,
    show applyPenalty [] a ((100 : Nat) : Int) =
      [(a.account_id, RecordedProposal.mk a.public_key (-100))] from rfl]
  have hnone : lookupM [(a.account_id, RecordedProposal.mk a.public_key (-100))]
      b.account_id = none := by
    simp only [lookupM, if_neg hab]
  simp only [applyPenalty, hnone]
  rfl

/-- The engine state after the all-miss header at index 1. -/
def s9aState (a b c d : SelectedAuthority) : AuthorityState :=
  { s2State0 a b c d with proposals := s9aProps a b }

lemma step9a (sp : Nat → List Nat)
    (ro : List (String × RecordedProposal) → List (String × RecordedProposal))
    (a b c d : SelectedAuthority) (hab : ¬ a.account_id = b.account_id) :
    process_block_header sp ro (s2State0 a b c d) h9a =
      some (s9aState a b c d) := by
  have hdiv : h9a.body.index / (s2State0 a b c d).authority_config.epoch_length =
      (s2State0 a b c d).current_epoch := by
    norm_num [h9a, s2State0, s2Config]
  have hpen : penaltyLoop (lookupM (s2State0 a b c d).current_threshold
      (s2State0 a b c d).current_epoch) [a, b] h9a.authority_mask 0
      (recordProposals (s2State0 a b c d).proposals h9a.body.authority_proposal) =
      some (s9aProps a b) := by
    show penaltyLoop (some 100) [a, b] [false, false] 0 [] = some (s9aProps a b)
    exact step9a_pen a b hab
  simp only [process_block_header,
    if_neg (show ¬h9a.body.index = 0 by decide),
    show get_authorities (s2State0 a b c d) h9a.body.index = Except.ok [a, b] from rfl,
    hpen, hdiv, eq_self_iff_true, if_true]
  rfl

lemma step9b_pen (a b c d : SelectedAuthority)
    (hca : ¬ a.account_id = c.account_id) (hcb : ¬ b.account_id = c.account_id)
    (hda : ¬ a.account_id = d.account_id) (hdb : ¬ b.account_id = d.account_id)
    (hdc : ¬ c.account_id = d.account_id) :
    penaltyLoop (some 100) [c, d] [false, false] 0 (s9aProps a b) =
      some (s9bProps a b c d) := by
  have e2 : penaltyLoop (some 100) [c, d] [false, false] 0 (s9aProps a b) =
      some (applyPenalty (applyPenalty (s9aProps a b) c ((100 : Nat) : Int))
        d ((100 : Nat) : Int)) := rfl
  have hnc : lookupM (s9aProps a b) c.account_id = none := by
    simp only [s9aProps, lookupM, if_neg hca, if_neg hcb]
  have h3 : applyPenalty (s9aProps a b) c ((100 : Nat) : Int) =
      s9aProps a b ++ [(c.account_id, RecordedProposal.mk c.public_key (-100))] := by
    simp only [applyPenalty, hnc]
    rfl
  have hnd : lookupM (s9aProps a b ++
      [(c.account_id, RecordedProposal.mk c.public_key (-100))]) d.account_id = none := by
    simp only [s9aProps, List.cons_append, List.nil_append, lookupM,
      if_neg hda, if_neg hdb, if_neg hdc]
  rw [e2, h3]
  simp only [applyPenalty, hnd]
  simp only [s9aProps, s9bProps, List.cons_append, List.nil_append]
  rfl

end Beacon

namespace Beacon

lemma boundary9_nil
    {ro : List (String × RecordedProposal) → List (String × RecordedProposal)}
    (hro : ValidReord ro) (a b c d : SelectedAuthority)
    (hperm : ([a, b, c, d]).Perm s2Tokens) :
    boundaryNewProposals ro (s9bProps a b c d) s2Config.initial_authorities = [] := by
  rw [boundaryNewProposals]
  have hfil : (ro (s9bProps a b c d)).filterMap (fun kv =>
      if 0 < kv.2.stake then
        some (AuthorityProposal.mk kv.1 kv.2.public_key kv.2.stake.toNat)
      else none) = [] := by
    rw [List.filterMap_eq_nil_iff]
    intro kv hkv
    have hkv' : kv ∈ s9bProps a b c d := ((hro _).mem_iff).1 hkv
    have hstake : kv.2.stake = -100 := by
      simp only [s9bProps, List.mem_cons, List.not_mem_nil, or_false] at hkv'
      rcases hkv' with h | h | h | h <;> subst h <;> rfl
    simp [hstake]
  have hcarry : s2Config.initial_authorities.filter
      (fun p => boundarySurvives (s9bProps a b c d) p) = [] := by
    rw [List.filter_eq_nil_iff]
    intro p hp
    have hpid : p.account_id ∈ s2Tokens.map (fun x => x.account_id) := by
      simp only [s2Config, List.mem_cons, List.not_mem_nil, or_false] at hp
      rcases hp with h | h | h | h <;> subst h <;> decide
    have hkey : p.account_id ∈ (s9bProps a b c d).map Prod.fst := by
      rw [show (s9bProps a b c d).map Prod.fst =
        [a, b, c, d].map (fun x => x.account_id) from rfl]
      exact ((hperm.map (fun x => x.account_id)).mem_iff).2 hpid
    obtain ⟨rp, hrp⟩ := Option.isSome_iff_exists.1 ((lookupM_isSome_iff _ _).2 hkey)
    have hstake : rp.stake = -100 := by
      refine @lookupM_value String RecordedProposal _ (fun v => v.stake = -100)
        (s9bProps a b c d) ?_ p.account_id rp hrp
      intro kv hkv
      simp only [s9bProps, List.mem_cons, List.not_mem_nil, or_false] at hkv
      rcases hkv with h | h | h | h <;> subst h <;> rfl
    have hamount : p.amount = 100 := by
      simp only [s2Config, List.mem_cons, List.not_mem_nil, or_false] at hp
      rcases hp with h | h | h | h <;> subst h <;> rfl
    simp only [boundarySurvives, hrp, Option.getD_some, hstake, hamount]
    decide
  rw [hfil, hcarry]
  rfl

lemma step9b {sp : Nat → List Nat}
    {ro : List (String × RecordedProposal) → List (String × RecordedProposal)}
    (hro : ValidReord ro) (a b c d : SelectedAuthority)
    (hperm : ([a, b, c, d]).Perm s2Tokens)
    (hac : ¬ a.account_id = c.account_id) (hbc : ¬ b.account_id = c.account_id)
    (had : ¬ a.account_id = d.account_id) (hbd : ¬ b.account_id = d.account_id)
    (hcd : ¬ c.account_id = d.account_id) :
    process_block_header sp ro (s9aState a b c d) h9b = none := by
  have hnb : ¬ h9b.body.index / (s9aState a b c d).authority_config.epoch_length =
      (s9aState a b c d).current_epoch := by
    norm_num [h9b, s9aState, s2State0, s2Config]
  refine @process_boundary_none sp ro (s9aState a b c d) h9b [c, d]
    (s9bProps a b c d) s2Config.initial_authorities
    (by decide) rfl ?_ hnb rfl ?_
  · show penaltyLoop (some 100) [c, d] [false, false] 0 (s9aProps a b) =
      some (s9bProps a b c d)
    exact step9b_pen a b c d hac hbc had hbd hcd
  · rw [boundary9_nil hro a b c d hperm]
    rfl

end Beacon

namespace Beacon

lemma obs9_empty
    {ro : List (String × RecordedProposal) → List (String × RecordedProposal)}
    (hro : ValidReord ro) (a b c d : SelectedAuthority)
    (hperm : ([a, b, c, d]).Perm s2Tokens)
    (hac : ¬ a.account_id = c.account_id) (hbc : ¬ b.account_id = c.account_id)
    (had : ¬ a.account_id = d.account_id) (hbd : ¬ b.account_id = d.account_id)
    (hcd : ¬ c.account_id = d.account_id) :
    obsBoundaryNewP ro (some (s9aState a b c d)) h9b = some [] := by
  have h0 : obsBoundaryNewP ro (some (s9aState a b c d)) h9b =
      (penaltyLoop (some 100) [c, d] [false, false] 0 (s9aProps a b)).bind
        (fun props2 => some (boundaryNewProposals ro props2
          s2Config.initial_authorities)) := rfl
  rw [h0, step9b_pen a b c d hac hbc had hbd hcd]
  show some (boundaryNewProposals ro (s9bProps a b c d) s2Config.initial_authorities) =
    some []
  rw [boundary9_nil hro a b c d hperm]

/-- Claim C9 as stated is false on the code: with four equal stakes of
100 and every participation bit false for both blocks of epoch 0, the
boundary does assemble an empty new_proposals list, but find_threshold
on the empty list does not fail: it returns Ok 1 (the pre-check finds no
offending item in an empty list and the binary search answers 1). The
failure the code actually hits is later, in proposals_to_authority. -/
theorem claim_c9_counterexample :
    find_threshold [] (s2Config.num_seats_per_slot * s2Config.epoch_length) =
      Except.ok 1 ∧
    ¬ ∃ e, find_threshold [] (s2Config.num_seats_per_slot * s2Config.epoch_length) =
      Except.error e := by
  refine ⟨rfl, ?_⟩
  rintro ⟨e, he⟩
  rw [show find_threshold [] (s2Config.num_seats_per_slot * s2Config.epoch_length) =
    Except.ok 1 from rfl] at he
  cases he

/-- Claim C9, amended: if every seat of the epoch-0 committee misses
every block of epoch 0 (all mask bits false across epoch_length
consecutive headers, four equal initial stakes of 100), the boundary
assembles an empty new_proposals list, find_threshold on that empty list
succeeds with threshold 1, and the run instead dies inside
proposals_to_authority, whose seat-count assertion fails on the empty
duplicated-proposals list (modeled as None); so the whole run returns
None for every valid shuffle and traversal order. -/
theorem claim_c9_amended (sp : Nat → List Nat)
    (ro : List (String × RecordedProposal) → List (String × RecordedProposal))
    (hsp : ValidPerm sp) (hro : ValidReord ro) :
    (∃ s1, run9To1 sp ro = some s1 ∧ obsBoundaryNewP ro (some s1) h9b = some []) ∧
    find_threshold [] (s2Config.num_seats_per_slot * s2Config.epoch_length) =
      Except.ok 1 ∧
    proposals_to_authority sp s2Config 0 [] 2 = none ∧
    run9 sp ro = none := by
  obtain ⟨a, b, c, d, hperm, hnew⟩ := new_s2 sp hsp
  have hnd : (([a, b, c, d]).map (fun x => x.account_id)).Nodup :=
    ((hperm.map (fun x => x.account_id)).nodup_iff).2 (by decide)
  simp only [List.map_cons, List.map_nil, List.nodup_cons, List.mem_cons,
    List.not_mem_nil, or_false, not_or, List.nodup_nil, and_true] at hnd
  obtain ⟨⟨hab, hac, had⟩, ⟨hbc, hbd⟩, hcd, -⟩ := hnd
  have h1 : run9To1 sp ro = some (s9aState a b c d) := by
    have hfold : run9To1 sp ro =
        (Authority.new sp s2Config).bind
          (fun s => process_block_header sp ro s h9a) := rfl
    rw [hfold, hnew]
    exact step9a sp ro a b c d hab
  refine ⟨⟨s9aState a b c d, h1,
    obs9_empty hro a b c d hperm hac hbc had hbd hcd⟩, rfl, rfl, ?_⟩
  have hsplit : run9 sp ro =
      (run9To1 sp ro).bind (fun s => process_block_header sp ro s h9b) := rfl
  rw [hsplit, h1]
  exact step9b hro a b c d hperm hac hbc had hbd hcd

/-- Witness for the amended claim C9 at the identity shuffle and the
identity traversal order. -/
theorem claim_c9_amended_witness :
    (∃ s1, run9To1 idPerm id = some s1 ∧ obsBoundaryNewP id (some s1) h9b = some []) ∧
    find_threshold [] (s2Config.num_seats_per_slot * s2Config.epoch_length) =
      Except.ok 1 ∧
    proposals_to_authority idPerm s2Config 0 [] 2 = none ∧
    run9 idPerm id = none :=
  claim_c9_amended idPerm id validPerm_idPerm validReord_id

end Beacon

namespace Beacon

/-- The corrected thresholds-key invariant: an epoch has a threshold
entry exactly when it is at most max(1, current_epoch). Before the first
boundary the construction seeds keys 0 and 1; afterwards each boundary
into epoch n adds key n, so current_epoch + 1 stops being present. -/
def thresholdsKeys (s : AuthorityState) : Prop :=
  ∀ e, (lookupM s.current_threshold e).isSome = true ↔ e ≤ max 1 s.current_epoch

lemma lookupM_alistInsert_isSome {κ β : Type} [DecidableEq κ]
    (m : List (κ × β)) (k e : κ) (v : β) :
    (lookupM (alistInsert m k v) e).isSome = true ↔
      (e = k ∨ (lookupM m e).isSome = true) := by
  by_cases he : k = e
  · subst he
    rw [lookupM_alistInsert_self]
    simp
  · rw [lookupM_alistInsert_ne m k e v he]
    constructor
    · exact Or.inr
    · rintro (h1 | h1)
      · exact absurd h1.symm he
      · exact h1

lemma proposals_to_authority_keys {sp : Nat → List Nat} {cfg : AuthorityConfig}
    {cur : Nat} {props : List AuthorityProposal} {off : Nat}
    {auths : List (Nat × List SelectedAuthority)} {t : Nat}
    (h : proposals_to_authority sp cfg cur props off = some (auths, t)) :
    auths.map Prod.fst = (List.range cfg.epoch_length).map
      (fun i => (cur + off) * cfg.epoch_length + i + 1) := by
  simp only [proposals_to_authority] at h
  cases hft : find_threshold (props.map (·.amount))
      (cfg.num_seats_per_slot * cfg.epoch_length) with
  | error e =>
    simp only [hft] at h
    exact Option.noConfusion h
  | ok thr =>
    simp only [hft] at h
    split at h
    · cases h
      rw [List.map_map]
      rfl
    · cases h

lemma thresholdsKeys_new {sp : Nat → List Nat} {cfg : AuthorityConfig}
    {s : AuthorityState} (h : Authority.new sp cfg = some s) : thresholdsKeys s := by
  simp only [Authority.new] at h
  cases hp2a : proposals_to_authority sp cfg 0 cfg.initial_authorities 0 with
  | none =>
    simp only [hp2a] at h
    exact Option.noConfusion h
  | some pair =>
    obtain ⟨auths, thr⟩ := pair
    simp only [hp2a] at h
    cases h
    intro e
    dsimp only
    rw [lookupM_alistInsert_isSome, lookupM_alistInsert_isSome]
    simp only [lookupM, Option.isSome_none, Bool.false_eq_true, or_false]
    omega

lemma thresholdsKeys_step {sp : Nat → List Nat}
    {ro : List (String × RecordedProposal) → List (String × RecordedProposal)}
    {s s' : AuthorityState} {h : SignedBeaconBlockHeader}
    (hinv : thresholdsKeys s)
    (hstep : h.body.index / s.authority_config.epoch_length = s.current_epoch ∨
      h.body.index / s.authority_config.epoch_length = s.current_epoch + 1)
    (hproc : process_block_header sp ro s h = some s') : thresholdsKeys s' := by
  by_cases hidx : h.body.index = 0
  · rw [process_block_header, if_pos hidx] at hproc
    cases hproc
    exact hinv
  · simp only [process_block_header, if_neg hidx] at hproc
    cases hga : get_authorities s h.body.index with
    | error e =>
      simp only [hga] at hproc
      exact Option.noConfusion hproc
    | ok auths =>
      simp only [hga] at hproc
      cases hpl : penaltyLoop (lookupM s.current_threshold s.current_epoch) auths
          h.authority_mask 0 (recordProposals s.proposals h.body.authority_proposal) with
      | none =>
        simp only [hpl] at hproc
        exact Option.noConfusion hproc
      | some props2 =>
        simp only [hpl] at hproc
        by_cases hnb : h.body.index / s.authority_config.epoch_length = s.current_epoch
        · rw [if_pos hnb] at hproc
          cases hproc
          intro e
          exact hinv e
        · rw [if_neg hnb] at hproc
          cases hacc : lookupM s.accepted_proposals s.current_epoch with
          | none =>
            simp only [hacc] at hproc
            exact Option.noConfusion hproc
          | some accepted =>
            simp only [hacc] at hproc
            cases hp2a : proposals_to_authority sp s.authority_config s.current_epoch
                (boundaryNewProposals ro props2 accepted) 2 with
            | none =>
              simp only [hp2a] at hproc
              exact Option.noConfusion hproc
            | some pair =>
              obtain ⟨auths2, thr⟩ := pair
              simp only [hp2a] at hproc
              cases hproc
              have hnext : h.body.index / s.authority_config.epoch_length =
                  s.current_epoch + 1 := hstep.resolve_left hnb
              intro e
              dsimp only
              rw [hnext, lookupM_alistInsert_isSome]
              have h1 := hinv e
              constructor
              · rintro (h2 | h2)
                · omega
                · have h3 := h1.1 h2
                  omega
              · intro h2
                by_cases he : e = s.current_epoch + 1
                · exact Or.inl he
                · exact Or.inr (h1.2 (by omega))

lemma boundary_threshold_value {sp : Nat → List Nat}
    {ro : List (String × RecordedProposal) → List (String × RecordedProposal)}
    {s s' : AuthorityState} {h : SignedBeaconBlockHeader}
    (hidx : ¬ h.body.index = 0)
    (hnb : ¬ h.body.index / s.authority_config.epoch_length = s.current_epoch)
    (hproc : process_block_header sp ro s h = some s') :
    ∃ props2 accepted auths2 thr,
      lookupM s.accepted_proposals s.current_epoch = some accepted ∧
      proposals_to_authority sp s.authority_config s.current_epoch
        (boundaryNewProposals ro props2 accepted) 2 = some (auths2, thr) ∧
      auths2.map Prod.fst = (List.range s.authority_config.epoch_length).map
        (fun i => (s.current_epoch + 2) * s.authority_config.epoch_length + i + 1) ∧
      s'.current = extendM s.current auths2 ∧
      s'.current_epoch = h.body.index / s.authority_config.epoch_length ∧
      lookupM s'.current_threshold (h.body.index / s.authority_config.epoch_length) =
        some thr := by
  simp only [process_block_header, if_neg hidx] at hproc
  cases hga : get_authorities s h.body.index with
  | error e =>
    simp only [hga] at hproc
    exact Option.noConfusion hproc
  | ok auths =>
    simp only [hga] at hproc
    cases hpl : penaltyLoop (lookupM s.current_threshold s.current_epoch) auths
        h.authority_mask 0 (recordProposals s.proposals h.body.authority_proposal) with
    | none =>
      simp only [hpl] at hproc
      exact Option.noConfusion hproc
    | some props2 =>
      simp only [hpl] at hproc
      rw [if_neg hnb] at hproc
      cases hacc : lookupM s.accepted_proposals s.current_epoch with
      | none =>
        simp only [hacc] at hproc
        exact Option.noConfusion hproc
      | some accepted =>
        simp only [hacc] at hproc
        cases hp2a : proposals_to_authority sp s.authority_config s.current_epoch
            (boundaryNewProposals ro props2 accepted) 2 with
        | none =>
          simp only [hp2a] at hproc
          exact Option.noConfusion hproc
        | some pair =>
          obtain ⟨auths2, thr⟩ := pair
          simp only [hp2a] at hproc
          cases hproc
          refine ⟨props2, accepted, auths2, thr, rfl, hp2a,
            proposals_to_authority_keys hp2a, rfl, rfl, ?_⟩
          exact lookupM_alistInsert_self s.current_threshold _ thr

/-- Claim C8 as stated is false on the code: after the scenario-S2 run
(boundary processed at block index 2, current_epoch now 1) the
thresholds map has no entry for epoch current_epoch + 1 = 2: the
construction seeds only keys 0 and 1, and each boundary into epoch n
inserts key n, never n + 1. -/
theorem claim_c8_counterexample :
    (runS2 idPerm id).map (fun s => s.current_epoch) = some 1 ∧
    obsThreshold (runS2 idPerm id) 2 = none := by decide

/-- Claim C8, amended: the thresholds map holds an entry for epoch e
exactly when e is at most max(1, current_epoch): the construction seeds
keys 0 and 1 at epoch 0, and each in-order successful
process_block_header call preserves the invariant, a boundary into
epoch n inserting key n only. Moreover the value stored at a boundary
under the new epoch n is the threshold that proposals_to_authority used
for the committee batch installed at that boundary, whose slot keys are
(n + 1) * epoch_length + 1 through (n + 2) * epoch_length, two epochs
ahead of the proposals' epoch, not epoch n's own committees. -/
theorem claim_c8_amended :
    (∀ sp (cfg : AuthorityConfig) (s : AuthorityState),
      Authority.new sp cfg = some s → thresholdsKeys s) ∧
    (∀ sp ro (s s' : AuthorityState) (hd : SignedBeaconBlockHeader),
      thresholdsKeys s →
      (hd.body.index / s.authority_config.epoch_length = s.current_epoch ∨
        hd.body.index / s.authority_config.epoch_length = s.current_epoch + 1) →
      process_block_header sp ro s hd = some s' → thresholdsKeys s') ∧
    (∀ sp ro (s s' : AuthorityState) (hd : SignedBeaconBlockHeader),
      ¬ hd.body.index = 0 →
      ¬ hd.body.index / s.authority_config.epoch_length = s.current_epoch →
      process_block_header sp ro s hd = some s' →
      ∃ props2 accepted auths2 thr,
        lookupM s.accepted_proposals s.current_epoch = some accepted ∧
        proposals_to_authority sp s.authority_config s.current_epoch
          (boundaryNewProposals ro props2 accepted) 2 = some (auths2, thr) ∧
        auths2.map Prod.fst = (List.range s.authority_config.epoch_length).map
          (fun i => (s.current_epoch + 2) * s.authority_config.epoch_length + i + 1) ∧
        s'.current = extendM s.current auths2 ∧
        s'.current_epoch = hd.body.index / s.authority_config.epoch_length ∧
        lookupM s'.current_threshold
          (hd.body.index / s.authority_config.epoch_length) = some thr) :=
  ⟨fun _ _ _ h => thresholdsKeys_new h,
   fun _ _ _ _ _ hinv hstep hproc => thresholdsKeys_step hinv hstep hproc,
   fun _ _ _ _ _ hidx hnb hproc => boundary_threshold_value hidx hnb hproc⟩

/-- Witness for the amended claim C8: the key invariant holds for the
constructed one-seat engine and is preserved across its first boundary
step. -/
theorem claim_c8_amended_witness :
    thresholdsKeys c5State0 ∧ thresholdsKeys c5State1 := by
  have h0 : thresholdsKeys c5State0 :=
    claim_c8_amended.1 idPerm c5Config c5State0 (by rfl)
  exact ⟨h0, claim_c8_amended.2.1 idPerm id c5State0 c5State1
    (SignedBeaconBlockHeader.mk (BlockBody.mk 1 []) [true]) h0
    (Or.inr (by decide)) (by rfl)⟩

end Beacon
